import Mathlib

/-!
A verification development for the Plynk planar-linkage simulator.

The definitions below are a shallow embedding of `geometry.py`, `joint.py`,
`bar.py`, the `driver` package and `linkage.py`.  Python floats are idealised
as real numbers, Python exceptions are modelled by explicit error values, and
Python object identity for joints is modelled by natural-number identifiers:
a mutable joint store is a function from identifiers to joint records.
Iteration over a Python `set` of objects (whose order is implementation
defined but fixed within a process) is modelled by iteration in the
underlying list order, which is one legitimate deterministic realisation.
-/

namespace Plynk

open scoped Classical

/-- A point in the plane, modelling the Python `(x, y)` tuples. -/
abbrev Point : Type := ℝ × ℝ

/-- The Python exceptions that the simulator can raise, as explicit values.
`timeOutOfRange` and `missingChooser` model `ValueError`s, `immutableJoint`
models the `AttributeError` from `Joint.__setattr__`, `zeroDivision` models an
uncaught `ZeroDivisionError`, `noneLocation` models the `TypeError` crash of
arithmetic on a joint whose `location` is still `None`, and the remaining
constructors model `InvalidLinkageError` with the data its message reports. -/
inductive SimError where
  | timeOutOfRange
  | zeroDivision
  | noneLocation (label : String)
  | immutableJoint (label : String)
  | missingChooser (label : String)
  | unsolvable (unsolved : Finset ℕ)
  | noIntersection (joint a b : ℕ) (aBar bBar : String)
  | infeasible (bar : String) (j1 j2 : ℕ)

/-- Result of `geometry.circular_intersection`: the two returned points, the
`None` return (taken when `math.sqrt` raises `ValueError` on a negative
argument, which the `try` block catches), or the uncaught `ZeroDivisionError`
raised by the division by `2 * L_C` when the centers coincide. -/
inductive CircResult where
  | points (p1 p2 : Point)
  | noSolution
  | zeroDiv

/-- geometry.circular_intersection.  `L_C` is the distance of the centers; its
`sqrt` argument is a sum of squares and never raises.  The division producing
`b` raises an uncaught `ZeroDivisionError` exactly when `L_C == 0`, and the
second `sqrt` raises `ValueError` (caught, returning `None`) exactly when its
argument `b_radius**2 - b**2` is negative.  Otherwise the two points are
returned exactly as computed by the Python formulas. -/
noncomputable def circular_intersection (a_center : Point) (a_radius : ℝ)
    (b_center : Point) (b_radius : ℝ) : CircResult :=
  let x_A := a_center.1
  let y_A := a_center.2
  let x_B := b_center.1
  let y_B := b_center.2
  let L_C := Real.sqrt ((x_A - x_B) ^ 2 + (y_A - y_B) ^ 2)
  if L_C = 0 then CircResult.zeroDiv else
  let b := (b_radius ^ 2 - a_radius ^ 2 + L_C ^ 2) / (2 * L_C)
  if b_radius ^ 2 - b ^ 2 < 0 then CircResult.noSolution else
  let h := Real.sqrt (b_radius ^ 2 - b ^ 2)
  let x_P := x_B + b * (x_A - x_B) / L_C
  let y_P := y_B + b * (y_A - y_B) / L_C
  CircResult.points
    (x_P + h * (y_B - y_A) / L_C, y_P - h * (x_B - x_A) / L_C)
    (x_P - h * (y_B - y_A) / L_C, y_P + h * (x_B - x_A) / L_C)

/-- geometry.line_angle: `math.atan2(dy, dx)`, which on the reals is exactly
the complex argument of `dx + dy*i` (both lie in `(-pi, pi]` and both send the
zero vector to `0`). -/
noncomputable def line_angle (endpoint1 endpoint2 : Point) : ℝ :=
  Complex.arg ⟨endpoint2.1 - endpoint1.1, endpoint2.2 - endpoint1.2⟩

/-- geometry.line_extension: extend the directed line from `endpoint_1` through
`endpoint_2` by a further length `L` past `endpoint_2`. -/
noncomputable def line_extension (endpoint_1 endpoint_2 : Point) (L : ℝ) : Point :=
  (endpoint_2.1 + L * Real.cos (line_angle endpoint_1 endpoint_2),
   endpoint_2.2 + L * Real.sin (line_angle endpoint_1 endpoint_2))

/-- geometry.distance: Euclidean distance between two points. -/
noncomputable def distance (point1 point2 : Point) : ℝ :=
  Real.sqrt ((point1.1 - point2.1) ^ 2 + (point1.2 - point2.2) ^ 2)

/-- joint.py `Joint`: label, optional current location, fixed flag, and the
optional chooser capability used to disambiguate two candidate locations. -/
structure Joint where
  label : String
  location : Option Point
  fixed : Bool
  chooser : Option (Point → Point → Point)

/-- The guarded attribute assignment `joint.location = val`: `Joint.__setattr__`
raises `AttributeError` whenever the joint is fixed, otherwise stores the
value. -/
def Joint.assign_location (j : Joint) (val : Option Point) : Except SimError Joint :=
  if j.fixed then .error (.immutableJoint j.label)
  else .ok { j with location := val }

/-- Joint.set_location: with `location2 == None` assign `location1` (through
the fixed-joint guard); with two candidates require the chooser, raising a
`ValueError` when it is absent, and otherwise assign `chooser(l1, l2)`.
Passing `None` as the first of two candidates would crash inside the chooser,
modelled by `noneLocation`. -/
def Joint.set_location (j : Joint) (location1 : Option Point)
    (location2 : Option Point) : Except SimError Joint :=
  match location2 with
  | none => j.assign_location location1
  | some l2 =>
    match j.chooser with
    | some chooser =>
      match location1 with
      | some l1 => j.assign_location (some (chooser l1 l2))
      | none => .error (.noneLocation j.label)
    | none => .error (.missingChooser j.label)

/-- joint.greater_x. -/
noncomputable def greater_x (point1 point2 : Point) : Point :=
  if point1.1 > point2.1 then point1 else point2

/-- joint.greater_y. -/
noncomputable def greater_y (point1 point2 : Point) : Point :=
  if point1.2 > point2.2 then point1 else point2

/-- joint.lesser_x. -/
noncomputable def lesser_x (point1 point2 : Point) : Point :=
  if point1.1 < point2.1 then point1 else point2

/-- joint.lesser_y. -/
noncomputable def lesser_y (point1 point2 : Point) : Point :=
  if point1.2 < point2.2 then point1 else point2

/-- bar.py `Bar`: a label, the ordered chain of joints (by identifier) and one
segment length per consecutive pair.  The constructor's count checks are not
needed by any claim below and are not modelled. -/
structure Bar where
  label : String
  joints : List ℕ
  segment_lengths : List ℝ

/-- The loop body of `Bar.origin_distance`: walk the chain accumulating
segment lengths and stop at the first element equal to the sought joint
(Python `==` on joints is object identity, here identifier equality).  The
Python method first raises `ValueError` when the joint is not on the bar; all
uses below apply it to members of the chain. -/
def originDistanceGo : List ℕ → List ℝ → ℕ → ℝ
  | [], _, _ => 0
  | _ :: _, [], _ => 0
  | e :: elems, l :: ls, j => if j = e then 0 else l + originDistanceGo elems ls j

/-- Bar.origin_distance: distance along the chain from the first joint. -/
def Bar.origin_distance (bar : Bar) (joint : ℕ) : ℝ :=
  originDistanceGo bar.joints bar.segment_lengths joint

/-- Bar.joint_distance: absolute difference of the two origin distances. -/
def Bar.joint_distance (bar : Bar) (joint1 joint2 : ℕ) : ℝ :=
  |bar.origin_distance joint1 - bar.origin_distance joint2|

/-- Truncation of a real toward zero, as used by C `fmod`. -/
noncomputable def truncToZero (x : ℝ) : ℤ :=
  if 0 ≤ x then ⌊x⌋ else ⌈x⌉

/-- `math.fmod x y` for a nonzero modulus: `x - y * trunc(x / y)`, whose
result carries the sign of `x` (unlike the Python `%` operator). -/
noncomputable def fmod (x y : ℝ) : ℝ :=
  x - y * ((truncToZero (x / y) : ℤ) : ℝ)

/-- The driver variants of the `driver` package as one closed datatype:
`Crank(label, location, attachment_joint, length, speed, starting_angle)`,
`Rocker(label, location, attachment_joint, length, starting_angle,
ending_angle, speed)` and `Slider(label, location, endpoint,
attachment_joint, speed)`. -/
inductive Driver where
  | crank (label : String) (location : Point) (attachment : ℕ)
      (speed length starting_angle : ℝ)
  | rocker (label : String) (location : Point) (attachment : ℕ)
      (speed length starting_angle ending_angle : ℝ)
  | slider (label : String) (location : Point) (endpoint : Point)
      (attachment : ℕ) (speed : ℝ)

/-- The `attachment_joint` attribute common to all driver variants. -/
def Driver.attachment_joint : Driver → ℕ
  | .crank _ _ attachment _ _ _ => attachment
  | .rocker _ _ attachment _ _ _ _ => attachment
  | .slider _ _ _ attachment _ => attachment

/-- The `speed` attribute common to all driver variants. -/
def Driver.speed : Driver → ℝ
  | .crank _ _ _ speed _ _ => speed
  | .rocker _ _ _ speed _ _ _ => speed
  | .slider _ _ _ _ speed => speed

/-- The `label` attribute common to all driver variants. -/
def Driver.label : Driver → String
  | .crank label _ _ _ _ _ => label
  | .rocker label _ _ _ _ _ _ => label
  | .slider label _ _ _ _ => label

/-- `point_for_time` of each driver variant, exactly as in `crank.py`,
`rocker.py` and `slider.py`.  The rocker's angles are in degrees and are
converted to radians (`(angle / 360) * 2 * pi`) after the triangle-wave
interpolation; the slider interpolates a travelled distance along the fixed
direction from `location` to `endpoint`. -/
noncomputable def Driver.point_for_time : Driver → ℝ → Point
  | .crank _ location _ _ length starting_angle, time =>
      (location.1 + length * Real.cos (starting_angle + time * 2 * Real.pi),
       location.2 + length * Real.sin (starting_angle + time * 2 * Real.pi))
  | .rocker _ location _ _ length starting_angle ending_angle, time =>
      let angle :=
        if time < 0.5 then
          starting_angle + time * 2 * (ending_angle - starting_angle)
        else
          ending_angle - (time - 0.5) * 2 * (ending_angle - starting_angle)
      (location.1 + length * Real.cos (angle / 360 * 2 * Real.pi),
       location.2 + length * Real.sin (angle / 360 * 2 * Real.pi))
  | .slider _ location endpoint _ _, time =>
      let length := distance location endpoint
      let angle := line_angle location endpoint
      let dist :=
        if time < 0.5 then time * 2 * length
        else length - (time - 0.5) * 2 * length
      (location.1 + dist * Real.cos angle, location.2 + dist * Real.sin angle)

/-- The mutable joint store: joint identifier to current joint record,
modelling the identity-bearing Python joint objects. -/
abbrev JMap := ℕ → Joint

/-- Update the record of joint `i` in the store. -/
def setJoint (jm : JMap) (i : ℕ) (j : Joint) : JMap :=
  fun k => if k = i then j else jm k

/-- Run `set_location` on joint `i` and store the result. -/
def updateLocation (jm : JMap) (i : ℕ) (l1 l2 : Option Point) :
    Except SimError JMap :=
  ((jm i).set_location l1 l2).map (setJoint jm i)

/-- Driver.update_attachment_point: assign
`point_for_time(math.fmod(time * speed, 1.0))` to the attachment joint's
location (a direct attribute assignment, so only the fixed-joint guard
applies, no chooser). -/
noncomputable def Driver.update_attachment_point (d : Driver) (time : ℝ)
    (jm : JMap) : Except SimError JMap :=
  ((jm d.attachment_joint).assign_location
      (some (d.point_for_time (fmod (time * d.speed) 1)))).map
    (setJoint jm d.attachment_joint)

/-- linkage.py `Linkage`: the topology handed to the solver. -/
structure Linkage where
  bars : List Bar
  joints : List ℕ
  drivers : List Driver

/-- Linkage.bars_connected_to_joint. -/
def Linkage.bars_connected_to_joint (L : Linkage) (joint : ℕ) : List Bar :=
  L.bars.filter (fun bar => joint ∈ bar.joints)

/-- One per-time-step computation of the compiled pipeline, i.e. the data of
one of the closures appended to `function_list` by
`generate_simulation_function`: a driver update, an intersection solver
(`solver_for_intersection`), or an extension solver
(`solver_for_joint_on_bar_given_joints`, which captures the full
`other_joints` list and always reads its first two elements `joints[0]` and
`joints[1]`). -/
inductive Step where
  | driverUpdate (d : Driver)
  | intersection (unknown_joint : ℕ) (a b : ℕ) (a_bar b_bar : Bar)
  | extension (joint : ℕ) (bar : Bar) (j0 j1 : ℕ)

/-- Execute one pipeline step at simulated time `time` on the joint store,
mirroring the bodies of the Python solver closures.  The intersection solver
reads the two known joints' locations (crashing if either is still `None`),
calls `circular_intersection` with each bar's own joint-to-target distance as
radius, raises `InvalidLinkageError` on a `None` result, and assigns via the
two-candidate `set_location` (hence through the chooser).  The extension
solver assigns `line_extension(j0.location, j1.location, origin_distance(joint)
- origin_distance(j1))` via the one-candidate `set_location`. -/
noncomputable def runStep (s : Step) (time : ℝ) (jm : JMap) :
    Except SimError JMap :=
  match s with
  | .driverUpdate d => d.update_attachment_point time jm
  | .intersection u a b a_bar b_bar =>
    match (jm a).location, (jm b).location with
    | some la, some lb =>
      match circular_intersection la (a_bar.joint_distance u a)
          lb (b_bar.joint_distance u b) with
      | .points p1 p2 => updateLocation jm u (some p1) (some p2)
      | .noSolution => .error (.noIntersection u a b a_bar.label b_bar.label)
      | .zeroDiv => .error .zeroDivision
    | none, _ => .error (.noneLocation (jm a).label)
    | _, none => .error (.noneLocation (jm b).label)
  | .extension joint bar j0 j1 =>
    match (jm j0).location, (jm j1).location with
    | some l0, some l1 =>
      updateLocation jm joint
        (some (line_extension l0 l1
          (bar.origin_distance joint - bar.origin_distance j1))) none
    | none, _ => .error (.noneLocation (jm j0).label)
    | _, none => .error (.noneLocation (jm j1).label)

/-- `itertools.combinations(l, 2)` in its enumeration order. -/
def combinations2 {α : Type} : List α → List (α × α)
  | [] => []
  | x :: xs => (xs.map (fun y => (x, y))) ++ combinations2 xs

/-- `itertools.product(as, bs)` in its enumeration order. -/
def productList {α β : Type} (as : List α) (bs : List β) : List (α × β) :=
  as.flatMap (fun a => bs.map (fun b => (a, b)))

/-- One entry of `requirements_to_functions`: the `(requirement frozenset,
target joint, solver)` triples built in step 1 of
`generate_simulation_function`. -/
structure Candidate where
  reqs : Finset ℕ
  target : ℕ
  step : Step

/-- All candidate solvers for one unknown `joint` (the loop body of step 1 of
`generate_simulation_function`): first the extension entries — for each
connected bar with more than two joints and each 2-combination of the bar's
other joints, an entry requiring that pair whose solver nevertheless captures
the whole `other_joints` list (and therefore reads its first two elements) —
then, when at least two bars touch the joint, the intersection entries for
each bar pair and each choice of one other joint from each bar (the Python
`set`s of other joints are modelled as deduplicated lists in chain order).
`a_bar` is the first bar of the pair containing `a`, likewise for `b`. -/
def candidatesForJoint (L : Linkage) (joint : ℕ) : List Candidate :=
  let bars := L.bars_connected_to_joint joint
  let extCands :=
    (bars.filter (fun bar => 2 < bar.joints.length)).flatMap (fun bar =>
      let other_joints := bar.joints.erase joint
      (combinations2 other_joints).map (fun pr =>
        { reqs := {pr.1, pr.2}, target := joint,
          step := Step.extension joint bar
            (other_joints.getD 0 0) (other_joints.getD 1 0) }))
  let intCands :=
    if bars.length < 2 then [] else
      (combinations2 bars).flatMap (fun bar_pair =>
        let b1_joints := (bar_pair.1.joints.filter (fun x => x ≠ joint)).dedup
        let b2_joints := (bar_pair.2.joints.filter (fun x => x ≠ joint)).dedup
        (productList b1_joints b2_joints).map (fun pr =>
          { reqs := {pr.1, pr.2}, target := joint,
            step := Step.intersection joint pr.1 pr.2
              (if pr.1 ∈ bar_pair.1.joints then bar_pair.1 else bar_pair.2)
              (if pr.2 ∈ bar_pair.1.joints then bar_pair.1 else bar_pair.2) }))
  extCands ++ intCands

/-- The initial solved set: joints attached to a driver together with the
fixed joints (reading the `fixed` flags from the current store). -/
def initialSolved (L : Linkage) (jm : JMap) : Finset ℕ :=
  (L.drivers.map Driver.attachment_joint).toFinset ∪
    (L.joints.filter (fun j => (jm j).fixed)).toFinset

/-- Step 1 of `generate_simulation_function`: candidates for every joint that
is not initially solved, in joint order. -/
def allCandidates (L : Linkage) (jm : JMap) : List Candidate :=
  (L.joints.filter (fun j => j ∉ initialSolved L jm)).flatMap (candidatesForJoint L)

/-- One scan of the candidate list (one iteration of the `while` loop of step
2): candidates are visited in list order; a candidate whose requirement set is
contained in the current solved set and whose target is not yet solved is
activated — its step is appended, its target inserted into the solved set
(visible to the candidates scanned later in the same pass), and it is removed
from the list.  Returns the remaining candidates, the new solved set, the
steps activated this pass in activation order, and the `round_solved` flag. -/
def onePass : List Candidate → Finset ℕ →
    List Candidate × Finset ℕ × List Step × Bool
  | [], solved => ([], solved, [], false)
  | c :: rest, solved =>
    if c.reqs ⊆ solved ∧ c.target ∉ solved then
      let r := onePass rest (insert c.target solved)
      (r.1, r.2.1, c.step :: r.2.2.1, true)
    else
      let r := onePass rest solved
      (c :: r.1, r.2.1, r.2.2.1, r.2.2.2)

theorem onePass_length_le (cands : List Candidate) (solved : Finset ℕ) :
    (onePass cands solved).1.length ≤ cands.length := by
  induction cands generalizing solved with
  | nil => simp [onePass]
  | cons c rest ih =>
    rw [onePass]
    split
    · exact le_trans (ih _) (Nat.le_succ _)
    · simpa using Nat.succ_le_succ (ih _)

theorem onePass_length_lt (cands : List Candidate) (solved : Finset ℕ)
    (h : (onePass cands solved).2.2.2 = true) :
    (onePass cands solved).1.length < cands.length := by
  induction cands generalizing solved with
  | nil => simp [onePass] at h
  | cons c rest ih =>
    rw [onePass] at h ⊢
    split at h <;> split
    · exact Nat.lt_succ_of_le (onePass_length_le _ _)
    · simp_all
    · simp_all
    · simpa using ih _ h

/-- Step 2's `while` loop: run passes until either the solved set equals the
full joint set (success: return the accumulated `function_list`) or a pass
activates nothing (failure: report `allJoints` minus the solved set). -/
def fixpointLoop (cands : List Candidate) (solved : Finset ℕ)
    (function_list : List Step) (allJoints : Finset ℕ) :
    Except (Finset ℕ) (List Step) :=
  if (onePass cands solved).2.1 = allJoints then
    .ok (function_list ++ (onePass cands solved).2.2.1)
  else if h : (onePass cands solved).2.2.2 = true then
    fixpointLoop (onePass cands solved).1 (onePass cands solved).2.1
      (function_list ++ (onePass cands solved).2.2.1) allJoints
  else .error (allJoints \ (onePass cands solved).2.1)
termination_by cands.length
decreasing_by exact onePass_length_lt _ _ h

/-- Linkage.generate_simulation_function up to the end of step 2: the ordered
step list starts with the driver updates and a stalled fixpoint raises
`InvalidLinkageError` carrying the set of joints that remain unsolved. -/
def generate_simulation_function (L : Linkage) (jm : JMap) :
    Except SimError (List Step) :=
  match fixpointLoop (allCandidates L jm) (initialSolved L jm)
      (L.drivers.map Step.driverUpdate) L.joints.toFinset with
  | .error unsolved => .error (.unsolvable unsolved)
  | .ok fl => .ok fl

/-- Run the pipeline steps in order; on the first error stop, returning the
store as mutated by the steps already run (a Python exception propagates but
earlier assignments persist). -/
noncomputable def runSteps : List Step → ℝ → JMap → JMap × Option SimError
  | [], _, jm => (jm, none)
  | s :: rest, time, jm =>
    match runStep s time jm with
    | .error e => (jm, some e)
    | .ok jm2 => runSteps rest time jm2

/-- linkage.pairwise: consecutive pairs of a list. -/
def adjacentPairs {α : Type} : List α → List (α × α)
  | [] => []
  | [_] => []
  | a :: b :: rest => (a, b) :: adjacentPairs (b :: rest)

/-- The per-pair body of `sim_function`'s validity check: read both locations
(crashing on a still-`None` location), and raise `InvalidLinkageError` naming
the bar and the joint pair unless the declared chain distance and the actual
Euclidean distance differ by strictly less than the margin. -/
noncomputable def checkPairs (bar : Bar) : List (ℕ × ℕ) → JMap → ℝ →
    Option SimError
  | [], _, _ => none
  | (j1, j2) :: rest, jm, margin =>
    match (jm j1).location, (jm j2).location with
    | some p1, some p2 =>
      if ¬ |bar.joint_distance j1 j2 - distance p1 p2| < margin then
        some (.infeasible bar.label j1 j2)
      else checkPairs bar rest jm margin
    | none, _ => some (.noneLocation (jm j1).label)
    | _, none => some (.noneLocation (jm j2).label)

/-- The validity check over all bars (the final loop of `sim_function`). -/
noncomputable def runChecks : List Bar → JMap → ℝ → Option SimError
  | [], _, _ => none
  | bar :: rest, jm, margin =>
    match checkPairs bar (adjacentPairs bar.joints) jm margin with
    | some e => some e
    | none => runChecks rest jm margin

/-- The body of the compiled `sim_function`: run every step in order with the
current time, then run the elastic-bar validity check with the default
`validity_margin` of `0.001`. -/
noncomputable def simFunctionRun (L : Linkage) (fl : List Step) (time : ℝ)
    (jm : JMap) : JMap × Option SimError :=
  match runSteps fl time jm with
  | (jm2, some e) => (jm2, some e)
  | (jm2, none) => (jm2, runChecks L.bars jm2 (1 / 1000))

/-- A cached snapshot: the (joint, location) pairs stored for one quantized
time bucket. -/
abbrev Snapshot := List (ℕ × Option Point)

/-- The mutable simulation state of a `Linkage` object: the joint store, the
position cache (`None` after invalidation, otherwise a bucket-to-snapshot
map) and the memoized compiled pipeline. -/
structure LinkState where
  jm : JMap
  cache : Option (ℤ → Option Snapshot)
  simulation_function : Option (List Step)

/-- Store a snapshot in the cache under a bucket. -/
def cacheInsert (c : ℤ → Option Snapshot) (k : ℤ) (v : Snapshot) :
    ℤ → Option Snapshot :=
  fun i => if i = k then some v else c i

/-- Look up a bucket, treating an invalidated (`None`) cache as empty. -/
def cacheLookup (st : LinkState) (k : ℤ) : Option Snapshot :=
  (st.cache.getD (fun _ => none)) k

/-- The cache-hit path of `simulate_to_time`: restore every snapshotted
joint's location through the one-candidate `set_location`. -/
noncomputable def restoreSnapshot : Snapshot → JMap → JMap × Option SimError
  | [], jm => (jm, none)
  | (i, loc) :: rest, jm =>
    match updateLocation jm i loc none with
    | .error e => (jm, some e)
    | .ok jm2 => restoreSnapshot rest jm2

/-- The shared tail of the cache-miss path: run the compiled `sim_function`;
on success snapshot every non-fixed joint's location into the cache under the
bucket; on failure propagate the error, leaving the cache without an entry
for the bucket but keeping the mutations the steps already made. -/
noncomputable def runBranch (L : Linkage) (time : ℝ) (st : LinkState)
    (cache_time : ℤ) (fl : List Step) : LinkState × Option SimError :=
  match simFunctionRun L fl time st.jm with
  | (jm2, some e) => ({ st with jm := jm2 }, some e)
  | (jm2, none) =>
    let snap : Snapshot :=
      (L.joints.filter (fun j => !(jm2 j).fixed)).map
        (fun j => (j, (jm2 j).location))
    let newCache := cacheInsert (st.cache.getD (fun _ => none)) cache_time snap
    ({ st with jm := jm2, cache := some newCache }, none)

/-- The cache-miss path of `simulate_to_time`: `self.cache` has already been
replaced by `{}` if it was `None`; compile the pipeline if it is not memoized
(a compilation error propagates before anything else happens), memoize it,
and continue with `runBranch`. -/
noncomputable def missBranch (L : Linkage) (time : ℝ) (st : LinkState)
    (cache_time : ℤ) : LinkState × Option SimError :=
  match st.simulation_function with
  | none =>
    match generate_simulation_function L st.jm with
    | .error e => (st, some e)
    | .ok fl => runBranch L time { st with simulation_function := some fl }
        cache_time fl
  | some fl => runBranch L time st cache_time fl

/-- Linkage.simulate_to_time: reject a time outside `[0, 1]`, quantize the
time into the bucket `floor(cache_accuraccy * time)` with the default
resolution `10000`, serve a cache hit by restoring the snapshot, and
otherwise take the miss path (initialising an invalidated cache to empty
first, exactly as the Python code does before compiling or running). -/
noncomputable def Linkage.simulate_to_time (L : Linkage) (time : ℝ)
    (st : LinkState) : LinkState × Option SimError :=
  if ¬ (0 ≤ time ∧ time ≤ 1) then (st, some .timeOutOfRange)
  else
    let cache_time : ℤ := ⌊(10000 : ℝ) * time⌋
    match st.cache with
    | some c =>
      match c cache_time with
      | some snap =>
        let r := restoreSnapshot snap st.jm
        ({ st with jm := r.1 }, r.2)
      | none => missBranch L time st cache_time
    | none =>
      missBranch L time { st with cache := some (fun _ => none) } cache_time

/-- Linkage.invalidate_caches: discard the memoized pipeline and the whole
position cache. -/
def invalidate_caches (st : LinkState) : LinkState :=
  { st with simulation_function := none, cache := none }

/-- The module-level mutable state behind `Linkage.copy`'s default arguments:
Python evaluates `shared_joints = []` once at function definition time, so
every call that omits the argument shares (and mutates) that one list
object.  Its current contents are threaded explicitly. -/
structure PyDefaults where
  copy_shared_joints : List ℕ

/-- Replace a driver's attachment joint (the `newd.attachment_joint =` line of
`Linkage.copy`). -/
def Driver.setAttachment : Driver → ℕ → Driver
  | .crank label location _ speed length starting_angle, a =>
      .crank label location a speed length starting_angle
  | .rocker label location _ speed length starting_angle ending_angle, a =>
      .rocker label location a speed length starting_angle ending_angle
  | .slider label location endpoint _ speed, a =>
      .slider label location endpoint a speed

/-- The result of `Linkage.copy` together with its side effects: the new
linkage, the joint store extended with the clones, the contents of the
caller's `shared_joints` list object after the call (it is mutated in place
by `extend`), and the new default-argument state. -/
structure CopyResult where
  linkage : Linkage
  jm : JMap
  shared_joints_after : List ℕ
  defaults : PyDefaults

/-- Linkage.copy.  When `shared_joints_arg` is `none` the call uses (and
mutates) the default list object held in `defaults`.  The call first extends
the shared list with every shared driver's attachment joint, builds the
old-to-new mapping (shared joints map to themselves, every other linkage
joint to a freshly allocated clone identifier starting at `fresh`, with the
suffix appended to the clone's label), clones the bars remapping their joint
references (`mapping` is the identity outside its domain, matching the
`if oldj in mapping` fallback), and keeps shared drivers while cloning the
rest with remapped attachments.  Python set difference is modelled by
list-order filtering, and Python object identity of drivers by structural
equality (classically decidable), which conflates only structurally equal
drivers — irrelevant for the claims below. -/
noncomputable def Linkage.copy (L : Linkage) (jm : JMap) (fresh : ℕ)
    (shared_joints_arg : Option (List ℕ)) (shared_drivers : List Driver)
    (joint_indic : String) (defaults : PyDefaults) : CopyResult :=
  let initial := shared_joints_arg.getD defaults.copy_shared_joints
  let shared_joints := initial ++ shared_drivers.map Driver.attachment_joint
  let toClone := L.joints.filter (fun j => j ∉ shared_joints)
  let mapping : ℕ → ℕ := fun j =>
    if j ∈ shared_joints then j
    else if j ∈ toClone then fresh + toClone.indexOf j else j
  let jm2 : JMap := fun i =>
    if fresh ≤ i ∧ i < fresh + toClone.length then
      let old := toClone.getD (i - fresh) 0
      { jm old with label := (jm old).label ++ joint_indic }
    else jm i
  let joints := shared_joints ++ toClone.map mapping
  let bars := L.bars.map (fun bar => { bar with joints := bar.joints.map mapping })
  let toCloneDrivers := L.drivers.filter (fun d => d ∉ shared_drivers)
  let drivers := shared_drivers ++
    toCloneDrivers.map (fun d => d.setAttachment (mapping d.attachment_joint))
  { linkage := { bars := bars, joints := joints, drivers := drivers },
    jm := jm2,
    shared_joints_after := shared_joints,
    defaults := if shared_joints_arg = none then
        { copy_shared_joints := shared_joints } else defaults }

/-!
Theorems settling the claims.
-/

/-- C4: the claim says `circular_intersection` signals "no intersection"
(returns `None`) for coincident centers and never fails in any other way; the
function's own docstring likewise promises two points or `None`.  The code,
however, only catches `ValueError`, so the division by `2 * L_C` raises an
uncaught `ZeroDivisionError` whenever the centers coincide: evaluating the
embedded code at coincident centers reaches the zero-division outcome rather
than the `None` return. -/
theorem circular_intersection_coincident_zero_division :
    circular_intersection (0, 0) 1 (0, 0) 2 = CircResult.zeroDiv := by
  unfold circular_intersection
  norm_num

/-- C5: for every driver variant, `update_attachment_point(t)` assigns the
attachment joint's location to `point_for_time(fmod(t * speed, 1.0))`: the
speed rescaling and the mod-1 wrap (Python's `math.fmod`) are applied to the
time before the variant's point formula is evaluated.  The only hypothesis is
that the attachment joint is not fixed (a fixed attachment would raise the
attribute guard before assigning). -/
theorem update_attachment_point_speed_wrap (d : Driver) (t : ℝ) (jm : JMap)
    (h : (jm d.attachment_joint).fixed = false) :
    d.update_attachment_point t jm =
      .ok (setJoint jm d.attachment_joint
        { jm d.attachment_joint with
            location := some (d.point_for_time (fmod (t * d.speed) 1)) }) := by
  simp [Driver.update_attachment_point, Joint.assign_location, h, Except.map]

/-- The joint store used by the C5 witness: every identifier holds a plain
non-fixed joint. -/
def jmPlain : JMap := fun _ => ⟨"q", none, false, none⟩

/-- Witness for C5: a concrete crank with speed 1 at time 3/10. -/
theorem update_attachment_point_speed_wrap_witness :
    (Driver.crank "c" (0, 0) 5 1 1 0).update_attachment_point (3/10) jmPlain =
      .ok (setJoint jmPlain (Driver.crank "c" (0, 0) 5 1 1 0).attachment_joint
        { jmPlain (Driver.crank "c" (0, 0) 5 1 1 0).attachment_joint with
            location := some ((Driver.crank "c" (0, 0) 5 1 1 0).point_for_time
              (fmod (3/10 * (Driver.crank "c" (0, 0) 5 1 1 0).speed) 1)) }) :=
  update_attachment_point_speed_wrap (Driver.crank "c" (0, 0) 5 1 1 0)
    (3/10) jmPlain rfl

/-- A fixed joint, used to refute C6 as universally stated. -/
def jFix : Joint :=
  { label := "a", location := some (0, 0), fixed := true, chooser := none }

/-- C6 counterexample: the claim says the single-candidate
`set_location(loc)` assigns `loc` unconditionally for every joint, but on a
fixed joint the attribute guard raises `AttributeError` instead of
assigning. -/
theorem set_location_fixed_joint_raises :
    jFix.set_location (some (1, 1)) none = .error (.immutableJoint "a") := rfl

/-- C6 amended: for every non-fixed joint, the two-candidate `set_location`
fails with the missing-disambiguator `ValueError` when no chooser is
configured and otherwise assigns `chooser(locA, locB)`, and the
single-candidate call assigns its argument unconditionally; on a fixed joint
any call that reaches the assignment fails with the fixed-joint guard
instead. -/
theorem set_location_characterisation (j : Joint) (h : j.fixed = false) :
    (∀ l1, j.set_location l1 none = .ok { j with location := l1 })
    ∧ (∀ lA lB, j.chooser = none →
        j.set_location (some lA) (some lB) = .error (.missingChooser j.label))
    ∧ (∀ lA lB c, j.chooser = some c →
        j.set_location (some lA) (some lB) =
          .ok { j with location := some (c lA lB) }) := by
  refine ⟨fun l1 => ?_, fun lA lB hc => ?_, fun lA lB c hc => ?_⟩
  · simp [Joint.set_location, Joint.assign_location, h]
  · simp [Joint.set_location, hc]
  · simp [Joint.set_location, Joint.assign_location, h, hc]

/-- A non-fixed joint with a chooser, for the C6 witness. -/
noncomputable def jChoose : Joint :=
  { label := "n", location := none, fixed := false, chooser := some greater_x }

/-- Witness for C6's amended claim at a concrete non-fixed joint. -/
theorem set_location_characterisation_witness :
    jChoose.set_location (some (1, 0)) (some (2, 0)) =
      .ok { jChoose with location := some (greater_x (1, 0) (2, 0)) } :=
  (set_location_characterisation jChoose rfl).2.2 (1, 0) (2, 0) greater_x rfl

/-- A bar with a negative declared segment length, which nothing in the code
forbids; it refutes C7 as universally stated. -/
def barNeg : Bar := { label := "neg", joints := [0, 1], segment_lengths := [-1] }

/-- C7 counterexample: on a constructible bar with a negative segment length,
`origin_distance` strictly decreases from chain position 0 to position 1. -/
theorem origin_distance_not_monotone :
    ¬ (barNeg.origin_distance (barNeg.joints.getD 0 0) ≤
        barNeg.origin_distance (barNeg.joints.getD 1 0)) := by
  norm_num [barNeg, Bar.origin_distance, originDistanceGo]

theorem originDistanceGo_get (js : List ℕ) (ls : List ℝ) (hnd : js.Nodup)
    (k : ℕ) (hk : k < js.length) :
    originDistanceGo js ls (js.get ⟨k, hk⟩) = (ls.take k).sum := by
  induction js generalizing ls k with
  | nil => simp at hk
  | cons e es ih =>
    cases k with
    | zero => cases ls <;> simp [originDistanceGo]
    | succ k =>
      have hk' : k < es.length := by simpa using hk
      have hne : es.get ⟨k, hk'⟩ ≠ e := by
        intro hEq
        exact (List.nodup_cons.mp hnd).1 (hEq ▸ List.get_mem es k hk')
      have hget : (e :: es).get ⟨k + 1, hk⟩ = es.get ⟨k, hk'⟩ := rfl
      cases ls with
      | nil => simp [originDistanceGo]
      | cons l ls' =>
        rw [hget]
        show (if es.get ⟨k, hk'⟩ = e then (0 : ℝ)
            else l + originDistanceGo es ls' (es.get ⟨k, hk'⟩)) = _
        rw [if_neg hne, ih ls' (List.nodup_cons.mp hnd).2 k hk',
          List.take_succ_cons, List.sum_cons]

theorem take_sum_mono (ls : List ℝ) (h : ∀ l ∈ ls, 0 ≤ l) (i j : ℕ)
    (hij : i ≤ j) : (ls.take i).sum ≤ (ls.take j).sum := by
  have hsplit : ls.take j = ls.take i ++ (ls.drop i).take (j - i) := by
    rw [← List.take_add, Nat.add_sub_cancel' hij]
  rw [hsplit, List.sum_append]
  have h2 : 0 ≤ ((ls.drop i).take (j - i)).sum := by
    refine List.sum_nonneg fun x hx => h x ?_
    exact List.mem_of_mem_drop (List.mem_of_mem_take hx)
  linarith

/-- C7 amended: `origin_distance` is monotone non-decreasing along a bar's
chain (equivalently, the prefix sums of the segment lengths are
non-decreasing) provided the declared segment lengths are nonnegative and the
chain has no repeated joint — both hold for geometrically meaningful bars but
neither is enforced by the constructor, and a negative segment length (see
the counterexample) falsifies the unconditional statement. -/
theorem origin_distance_monotone (bar : Bar)
    (hnn : ∀ l ∈ bar.segment_lengths, 0 ≤ l) (hnd : bar.joints.Nodup)
    (i j : ℕ) (hi : i < bar.joints.length) (hj : j < bar.joints.length)
    (hij : i ≤ j) :
    bar.origin_distance (bar.joints.get ⟨i, hi⟩) ≤
      bar.origin_distance (bar.joints.get ⟨j, hj⟩) := by
  rw [Bar.origin_distance, Bar.origin_distance,
    originDistanceGo_get _ _ hnd i hi, originDistanceGo_get _ _ hnd j hj]
  exact take_sum_mono _ hnn i j hij

/-- A well-formed three-joint bar for the C7 witness. -/
def barMono : Bar :=
  { label := "w", joints := [5, 6, 7], segment_lengths := [1, 2] }

/-- Witness for C7's amended claim at chain positions 0 and 2 of a concrete
bar. -/
theorem origin_distance_monotone_witness :
    barMono.origin_distance (barMono.joints.get ⟨0, by norm_num [barMono]⟩) ≤
      barMono.origin_distance (barMono.joints.get ⟨2, by norm_num [barMono]⟩) :=
  origin_distance_monotone barMono
    (by intro l hl; fin_cases hl <;> norm_num) (by decide) 0 2
    (by norm_num [barMono]) (by norm_num [barMono]) (by norm_num)

/-- C8: the rocker's angle sweeps linearly from `starting_angle` to
`ending_angle` over effective time in `[0, 1/2)` and linearly back on
`[1/2, 1)`; the angle (given in degrees) is converted to radians before the
trigonometric evaluation, and the point is
`center + length * (cos angle, sin angle)`. -/
theorem rocker_point_for_time_formula (label : String) (location : Point)
    (attachment : ℕ) (speed length starting_angle ending_angle t : ℝ) :
    (t < 1/2 →
      (Driver.rocker label location attachment speed length starting_angle
          ending_angle).point_for_time t =
        (location.1 + length * Real.cos
            ((starting_angle + 2 * t * (ending_angle - starting_angle)) *
              Real.pi / 180),
         location.2 + length * Real.sin
            ((starting_angle + 2 * t * (ending_angle - starting_angle)) *
              Real.pi / 180)))
    ∧ (1/2 ≤ t →
      (Driver.rocker label location attachment speed length starting_angle
          ending_angle).point_for_time t =
        (location.1 + length * Real.cos
            ((ending_angle - 2 * (t - 1/2) * (ending_angle - starting_angle)) *
              Real.pi / 180),
         location.2 + length * Real.sin
            ((ending_angle - 2 * (t - 1/2) * (ending_angle - starting_angle)) *
              Real.pi / 180))) := by
  constructor
  · intro h
    have h5 : t < 0.5 := by norm_num; linarith
    simp only [Driver.point_for_time, if_pos h5]
    rw [show (starting_angle + t * 2 * (ending_angle - starting_angle)) /
          360 * 2 * Real.pi =
        (starting_angle + 2 * t * (ending_angle - starting_angle)) *
          Real.pi / 180 by ring]
  · intro h
    have h5 : ¬ t < 0.5 := by norm_num; linarith
    simp only [Driver.point_for_time, if_neg h5]
    rw [show (ending_angle - (t - 0.5) * 2 * (ending_angle - starting_angle)) /
          360 * 2 * Real.pi =
        (ending_angle - 2 * (t - 1/2) * (ending_angle - starting_angle)) *
          Real.pi / 180 by norm_num; ring]

/-- Witness for C8: both branches of the triangle wave at the concrete times
1/4 and 3/4. -/
theorem rocker_point_for_time_witness :
    (Driver.rocker "r" (1, 2) 0 1 3 10 90).point_for_time (1/4) =
      ((1 : ℝ) + 3 * Real.cos ((10 + 2 * (1/4) * (90 - 10)) * Real.pi / 180),
       (2 : ℝ) + 3 * Real.sin ((10 + 2 * (1/4) * (90 - 10)) * Real.pi / 180)) ∧
    (Driver.rocker "r" (1, 2) 0 1 3 10 90).point_for_time (3/4) =
      ((1 : ℝ) + 3 * Real.cos
          ((90 - 2 * (3/4 - 1/2) * (90 - 10)) * Real.pi / 180),
       (2 : ℝ) + 3 * Real.sin
          ((90 - 2 * (3/4 - 1/2) * (90 - 10)) * Real.pi / 180)) :=
  ⟨(rocker_point_for_time_formula "r" (1, 2) 0 1 3 10 90 (1/4)).1 (by norm_num),
   (rocker_point_for_time_formula "r" (1, 2) 0 1 3 10 90 (3/4)).2 (by norm_num)⟩

/-- C10: `Linkage.copy` extends the very `shared_joints` list object it is
given with every shared driver's attachment joint, so a caller-supplied list
is mutated in place (its contents after the call are the old contents plus
the attachments) while the module-level default object is untouched; when the
argument is omitted, the mutable default list object itself is extended, so
the appended attachment joints are still present when a later `copy` call —
on any linkage — omits the argument again. -/
theorem copy_mutates_shared_joints (L L2 : Linkage) (jm jm2 : JMap)
    (fresh fresh2 : ℕ) (l : List ℕ) (sd sd1 sd2 : List Driver)
    (sfx sfx2 : String) (defaults : PyDefaults) :
    ((L.copy jm fresh (some l) sd sfx defaults).shared_joints_after
        = l ++ sd.map Driver.attachment_joint)
    ∧ ((L.copy jm fresh (some l) sd sfx defaults).defaults = defaults)
    ∧ ((L.copy jm fresh none sd sfx defaults).shared_joints_after
        = defaults.copy_shared_joints ++ sd.map Driver.attachment_joint)
    ∧ ((L.copy jm fresh none sd sfx defaults).defaults.copy_shared_joints
        = defaults.copy_shared_joints ++ sd.map Driver.attachment_joint)
    ∧ ((L2.copy jm2 fresh2 none sd2 sfx2
          (L.copy jm fresh none sd1 sfx defaults).defaults).shared_joints_after
        = defaults.copy_shared_joints ++ sd1.map Driver.attachment_joint
            ++ sd2.map Driver.attachment_joint) := by
  refine ⟨?_, ?_, ?_, ?_, ?_⟩ <;> simp [Linkage.copy]

theorem onePass_solved_mono (cands : List Candidate) :
    ∀ (solved : Finset ℕ), solved ⊆ (onePass cands solved).2.1 := by
  induction cands with
  | nil => intro solved; simp [onePass]
  | cons c rest ih =>
    intro solved
    rw [onePass]
    split
    · exact (Finset.subset_insert _ _).trans (ih _)
    · exact ih _

theorem onePass_mem_or_target (cands : List Candidate) :
    ∀ (solved : Finset ℕ) (c' : Candidate), c' ∈ cands →
      c' ∈ (onePass cands solved).1 ∨ c'.target ∈ (onePass cands solved).2.1 := by
  induction cands with
  | nil => intro solved c' hm; simp at hm
  | cons c rest ih =>
    intro solved c' hm
    rw [onePass]
    rcases List.mem_cons.mp hm with rfl | hm2
    · split
      · exact Or.inr
          (onePass_solved_mono rest (insert c'.target solved)
            (Finset.mem_insert_self _ _))
      · exact Or.inl (List.mem_cons_self _ _)
    · split
      · exact ih _ _ hm2
      · rcases ih solved _ hm2 with h | h
        · exact Or.inl (List.mem_cons_of_mem _ h)
        · exact Or.inr h

theorem onePass_round_false (cands : List Candidate) :
    ∀ (solved : Finset ℕ), (onePass cands solved).2.2.2 = false →
      (onePass cands solved).1 = cands ∧ (onePass cands solved).2.1 = solved ∧
      ∀ c ∈ cands, ¬(c.reqs ⊆ solved ∧ c.target ∉ solved) := by
  induction cands with
  | nil => intro solved _; simp [onePass]
  | cons c rest ih =>
    intro solved h
    rw [onePass] at h
    by_cases hcond : c.reqs ⊆ solved ∧ c.target ∉ solved
    · rw [if_pos hcond] at h
      simp at h
    · rw [if_neg hcond] at h
      obtain ⟨h1, h2, h3⟩ := ih solved h
      rw [onePass, if_neg hcond]
      refine ⟨by simp [h1], h2, fun c2 hc2 => ?_⟩
      rcases List.mem_cons.mp hc2 with rfl | hm
      · exact hcond
      · exact h3 _ hm

theorem onePass_solved_subset (cands : List Candidate) :
    ∀ (solved : Finset ℕ), (onePass cands solved).2.1 ⊆
      solved ∪ (cands.map Candidate.target).toFinset := by
  induction cands with
  | nil => intro solved; simp [onePass]
  | cons c rest ih =>
    intro solved
    rw [onePass]
    split
    · refine (ih (insert c.target solved)).trans fun x hx => ?_
      simp only [Finset.mem_union, Finset.mem_insert, List.map_cons,
        List.mem_toFinset, List.mem_cons] at hx ⊢
      tauto
    · refine (ih solved).trans fun x hx => ?_
      simp only [Finset.mem_union, List.map_cons, List.mem_toFinset,
        List.mem_cons] at hx ⊢
      tauto

theorem onePass_remaining_mem (cands : List Candidate) :
    ∀ (solved : Finset ℕ) (c' : Candidate),
      c' ∈ (onePass cands solved).1 → c' ∈ cands := by
  induction cands with
  | nil => intro solved c' h; simp [onePass] at h
  | cons c rest ih =>
    intro solved c' h
    rw [onePass] at h
    split at h
    · exact List.mem_cons_of_mem _ (ih _ _ h)
    · rcases List.mem_cons.mp h with rfl | hm
      · exact List.mem_cons_self _ _
      · exact List.mem_cons_of_mem _ (ih _ _ hm)

/-- Membership in the least set of joints containing the initial solved set
and closed under the candidate rules: the joints the fixpoint iteration can
ever solve. -/
inductive Reachable (cands : List Candidate) (s0 : Finset ℕ) : ℕ → Prop where
  | base (j : ℕ) : j ∈ s0 → Reachable cands s0 j
  | rule (c : Candidate) : c ∈ cands → (∀ r ∈ c.reqs, Reachable cands s0 r) →
      Reachable cands s0 c.target

theorem Reachable.mono {cands cands' : List Candidate} {s0 s0' : Finset ℕ}
    (hs : s0 ⊆ s0') (hc : ∀ c ∈ cands, c ∈ cands' ∨ c.target ∈ s0') {j : ℕ}
    (h : Reachable cands s0 j) : Reachable cands' s0' j := by
  induction h with
  | base j hj => exact .base j (hs hj)
  | rule c hmem _ ih =>
    rcases hc c hmem with h2 | h2
    · exact .rule c h2 ih
    · exact .base _ h2

theorem Reachable.mem_of_stall {cands : List Candidate} {solved : Finset ℕ}
    (hstall : ∀ c ∈ cands, ¬(c.reqs ⊆ solved ∧ c.target ∉ solved)) {j : ℕ}
    (h : Reachable cands solved j) : j ∈ solved := by
  induction h with
  | base j hj => exact hj
  | rule c hmem _ ih =>
    by_contra hnot
    exact hstall c hmem ⟨fun r hr => ih r hr, hnot⟩

theorem fixpointLoop_error (n : ℕ) : ∀ (cands : List Candidate),
    cands.length ≤ n → ∀ (solved : Finset ℕ) (fl : List Step)
    (J S : Finset ℕ), solved ⊆ J → (∀ c ∈ cands, c.target ∈ J) →
    fixpointLoop cands solved fl J = .error S →
    ∃ (solved2 : Finset ℕ) (cands2 : List Candidate),
      solved ⊆ solved2 ∧ solved2 ⊆ J ∧ solved2 ≠ J ∧
      (∀ c ∈ cands2, ¬(c.reqs ⊆ solved2 ∧ c.target ∉ solved2)) ∧
      S = J \ solved2 ∧ S.Nonempty := by
  induction n with
  | zero =>
    intro cands hlen solved fl J S hsub htgt herr
    have hnil : cands = [] := List.eq_nil_of_length_eq_zero (Nat.le_zero.mp hlen)
    subst hnil
    rw [fixpointLoop] at herr
    by_cases hJ : (onePass ([] : List Candidate) solved).2.1 = J
    · rw [if_pos hJ] at herr; simp at herr
    · rw [if_neg hJ, dif_neg (by simp [onePass])] at herr
      have hsolved : (onePass ([] : List Candidate) solved).2.1 = solved := rfl
      rw [hsolved] at hJ herr
      have hS : S = J \ solved := by simpa using herr.symm
      refine ⟨solved, [], le_refl _, hsub, hJ, by simp, hS, ?_⟩
      rw [hS]
      exact Finset.sdiff_nonempty.mpr
        fun hJs => hJ (Finset.Subset.antisymm hsub hJs)
  | succ n ih =>
    intro cands hlen solved fl J S hsub htgt herr
    rw [fixpointLoop] at herr
    by_cases hJ : (onePass cands solved).2.1 = J
    · rw [if_pos hJ] at herr; simp at herr
    · rw [if_neg hJ] at herr
      by_cases hflag : (onePass cands solved).2.2.2 = true
      · rw [dif_pos hflag] at herr
        have hsub2 : (onePass cands solved).2.1 ⊆ J := by
          refine (onePass_solved_subset cands solved).trans ?_
          intro x hx
          rcases Finset.mem_union.mp hx with h | h
          · exact hsub h
          · obtain ⟨c, hc, rfl⟩ := by simpa using h
            exact htgt c hc
        have htgt2 : ∀ c ∈ (onePass cands solved).1, c.target ∈ J :=
          fun c hc => htgt c (onePass_remaining_mem cands solved c hc)
        have hlen2 : (onePass cands solved).1.length ≤ n :=
          Nat.lt_succ_iff.mp
            (lt_of_lt_of_le (onePass_length_lt cands solved hflag) hlen)
        obtain ⟨s2, c2, hs2a, hs2b, hs2c, hs2d, hs2e, hs2f⟩ :=
          ih _ hlen2 _ _ J S hsub2 htgt2 herr
        exact ⟨s2, c2, (onePass_solved_mono cands solved).trans hs2a,
          hs2b, hs2c, hs2d, hs2e, hs2f⟩
      · rw [dif_neg hflag] at herr
        obtain ⟨_, hc2, hc3⟩ := onePass_round_false cands solved
          (Bool.not_eq_true _ |>.mp hflag)
        rw [hc2] at herr hJ
        have hS : S = J \ solved := by simpa using herr.symm
        refine ⟨solved, cands, le_refl _, hsub, hJ, hc3, hS, ?_⟩
        rw [hS]
        exact Finset.sdiff_nonempty.mpr
          fun hJs => hJ (Finset.Subset.antisymm hsub hJs)

theorem fixpointLoop_ok_of_reachable (n : ℕ) : ∀ (cands : List Candidate),
    cands.length ≤ n → ∀ (solved : Finset ℕ) (fl : List Step) (J : Finset ℕ),
    solved ⊆ J → (∀ c ∈ cands, c.target ∈ J) →
    (∀ j ∈ J, Reachable cands solved j) →
    ∃ fl2, fixpointLoop cands solved fl J = .ok fl2 := by
  induction n with
  | zero =>
    intro cands hlen solved fl J hsub _ hreach
    have hnil : cands = [] := List.eq_nil_of_length_eq_zero (Nat.le_zero.mp hlen)
    subst hnil
    have hstall : ∀ c ∈ ([] : List Candidate),
        ¬(c.reqs ⊆ solved ∧ c.target ∉ solved) := by simp
    have hJs : J ⊆ solved := fun j hj => (hreach j hj).mem_of_stall hstall
    have hEq : (onePass ([] : List Candidate) solved).2.1 = J :=
      Finset.Subset.antisymm hsub hJs
    rw [fixpointLoop, if_pos hEq]
    exact ⟨_, rfl⟩
  | succ n ih =>
    intro cands hlen solved fl J hsub htgt hreach
    rw [fixpointLoop]
    by_cases hJ : (onePass cands solved).2.1 = J
    · rw [if_pos hJ]; exact ⟨_, rfl⟩
    · rw [if_neg hJ]
      by_cases hflag : (onePass cands solved).2.2.2 = true
      · rw [dif_pos hflag]
        have hsub2 : (onePass cands solved).2.1 ⊆ J := by
          refine (onePass_solved_subset cands solved).trans ?_
          intro x hx
          rcases Finset.mem_union.mp hx with h | h
          · exact hsub h
          · obtain ⟨c, hc, rfl⟩ := by simpa using h
            exact htgt c hc
        have htgt2 : ∀ c ∈ (onePass cands solved).1, c.target ∈ J :=
          fun c hc => htgt c (onePass_remaining_mem cands solved c hc)
        have hreach2 : ∀ j ∈ J,
            Reachable (onePass cands solved).1 (onePass cands solved).2.1 j :=
          fun j hj => (hreach j hj).mono (onePass_solved_mono cands solved)
            (fun c hc => onePass_mem_or_target cands solved c hc)
        have hlen2 : (onePass cands solved).1.length ≤ n :=
          Nat.lt_succ_iff.mp
            (lt_of_lt_of_le (onePass_length_lt cands solved hflag) hlen)
        exact ih _ hlen2 _ (fl ++ (onePass cands solved).2.2.1) J hsub2
          htgt2 hreach2
      · exfalso
        obtain ⟨_, hc2, hc3⟩ := onePass_round_false cands solved
          (Bool.not_eq_true _ |>.mp hflag)
        have hJs : J ⊆ solved := fun j hj => (hreach j hj).mem_of_stall hc3
        exact hJ (hc2.trans (Finset.Subset.antisymm hsub hJs))

theorem onePass_solved_reach (cands0 : List Candidate) (s0 : Finset ℕ) :
    ∀ (cands : List Candidate) (solved : Finset ℕ),
      (∀ c ∈ cands, c ∈ cands0) →
      (∀ j ∈ solved, Reachable cands0 s0 j) →
      ∀ j ∈ (onePass cands solved).2.1, Reachable cands0 s0 j := by
  intro cands
  induction cands with
  | nil => intro solved _ hs; simpa [onePass] using hs
  | cons c rest ih =>
    intro solved hc hs
    rw [onePass]
    split
    · rename_i hcond
      refine ih (insert c.target solved)
        (fun c2 hc2 => hc c2 (List.mem_cons_of_mem _ hc2)) ?_
      intro j hj
      rcases Finset.mem_insert.mp hj with rfl | hj2
      · exact Reachable.rule c (hc c (List.mem_cons_self _ _))
          (fun r hr => hs r (hcond.1 hr))
      · exact hs j hj2
    · exact ih solved (fun c2 hc2 => hc c2 (List.mem_cons_of_mem _ hc2)) hs

theorem fixpointLoop_ok_reach (n : ℕ) : ∀ (cands : List Candidate),
    cands.length ≤ n → ∀ (cands0 : List Candidate) (solved s0 : Finset ℕ)
    (fl : List Step) (J : Finset ℕ),
    (∀ c ∈ cands, c ∈ cands0) → (∀ j ∈ solved, Reachable cands0 s0 j) →
    ∀ fl2, fixpointLoop cands solved fl J = .ok fl2 →
    ∀ j ∈ J, Reachable cands0 s0 j := by
  induction n with
  | zero =>
    intro cands hlen cands0 solved s0 fl J hc hs fl2 hok
    have hnil : cands = [] := List.eq_nil_of_length_eq_zero (Nat.le_zero.mp hlen)
    subst hnil
    rw [fixpointLoop] at hok
    by_cases hJ : (onePass ([] : List Candidate) solved).2.1 = J
    · intro j hj
      have hj2 : j ∈ solved := by
        have : (onePass ([] : List Candidate) solved).2.1 = solved := rfl
        rw [this] at hJ
        exact hJ ▸ hj
      exact hs j hj2
    · rw [if_neg hJ, dif_neg (by simp [onePass])] at hok
      simp at hok
  | succ n ih =>
    intro cands hlen cands0 solved s0 fl J hc hs fl2 hok
    rw [fixpointLoop] at hok
    by_cases hJ : (onePass cands solved).2.1 = J
    · intro j hj
      exact onePass_solved_reach cands0 s0 cands solved hc hs j (hJ ▸ hj)
    · rw [if_neg hJ] at hok
      by_cases hflag : (onePass cands solved).2.2.2 = true
      · rw [dif_pos hflag] at hok
        have hlen2 : (onePass cands solved).1.length ≤ n :=
          Nat.lt_succ_iff.mp
            (lt_of_lt_of_le (onePass_length_lt cands solved hflag) hlen)
        exact ih _ hlen2 cands0 _ s0 _ J
          (fun c2 hc2 => hc c2 (onePass_remaining_mem cands solved c2 hc2))
          (onePass_solved_reach cands0 s0 cands solved hc hs) fl2 hok
      · rw [dif_neg hflag] at hok
        simp at hok

theorem candidatesForJoint_target (L : Linkage) (joint : ℕ) (c : Candidate)
    (hc : c ∈ candidatesForJoint L joint) : c.target = joint := by
  simp only [candidatesForJoint, List.mem_append, List.mem_flatMap,
    List.mem_map, List.mem_filter] at hc
  rcases hc with ⟨bar, _, pr, _, rfl⟩ | h2
  · rfl
  · split at h2
    · simp at h2
    · simp only [List.mem_flatMap, List.mem_map] at h2
      obtain ⟨bp, _, pr, _, rfl⟩ := h2
      rfl

theorem allCandidates_target_mem (L : Linkage) (jm : JMap) (c : Candidate)
    (hc : c ∈ allCandidates L jm) : c.target ∈ L.joints.toFinset := by
  simp only [allCandidates, List.mem_flatMap, List.mem_filter] at hc
  obtain ⟨j, ⟨hj, _⟩, hcj⟩ := hc
  rw [candidatesForJoint_target L j c hcj]
  simpa using hj

theorem initialSolved_subset (L : Linkage) (jm : JMap)
    (hdr : ∀ d ∈ L.drivers, d.attachment_joint ∈ L.joints) :
    initialSolved L jm ⊆ L.joints.toFinset := by
  intro x hx
  simp only [initialSolved, Finset.mem_union, List.mem_toFinset,
    List.mem_map, List.mem_filter] at hx
  rcases hx with ⟨d, hd, rfl⟩ | ⟨hx2, _⟩
  · simpa using hdr d hd
  · simpa using hx2

/-- C1: if, during pipeline compilation, a fixpoint pass over the remaining
candidate rules activates no new solver while some joints are still unsolved,
the call fails with an `InvalidLinkageError` whose reported set is exactly the
linkage's joints minus the solved set at the stall (a nonempty set, the
intermediate solved set extending the initial one and no remaining candidate
being applicable to it); and whenever every joint is solvable by the rules
(every joint lies in the closure of the initial solved set under the
candidate rules) the compilation succeeds and no such error is raised;
conversely, compilation succeeds only when every joint is in that closure, so
success is exactly reachability of all joints.  The only side condition is the
reference integrity that `validity_check` enforces on every topology
assignment: drivers attach to joints of the linkage. -/
theorem generate_fixpoint_characterisation (L : Linkage) (jm : JMap)
    (hdr : ∀ d ∈ L.drivers, d.attachment_joint ∈ L.joints) :
    (∀ S, generate_simulation_function L jm = .error (.unsolvable S) →
      ∃ (solved2 : Finset ℕ) (cands2 : List Candidate),
        initialSolved L jm ⊆ solved2 ∧
        solved2 ⊆ L.joints.toFinset ∧ solved2 ≠ L.joints.toFinset ∧
        (∀ c ∈ cands2, ¬(c.reqs ⊆ solved2 ∧ c.target ∉ solved2)) ∧
        S = L.joints.toFinset \ solved2 ∧ S.Nonempty)
    ∧ ((∀ j ∈ L.joints.toFinset,
          Reachable (allCandidates L jm) (initialSolved L jm) j) →
        ∃ fl, generate_simulation_function L jm = .ok fl)
    ∧ (∀ fl, generate_simulation_function L jm = .ok fl →
        ∀ j ∈ L.joints.toFinset,
          Reachable (allCandidates L jm) (initialSolved L jm) j) := by
  refine ⟨?_, ?_, ?_⟩
  · intro S hS
    rcases hfx : fixpointLoop (allCandidates L jm) (initialSolved L jm)
        (L.drivers.map Step.driverUpdate) L.joints.toFinset with S' | fl
    · rw [generate_simulation_function, hfx] at hS
      have hSS : S' = S := by simpa using hS
      subst hSS
      exact fixpointLoop_error (allCandidates L jm).length _ le_rfl _ _ _ _
        (initialSolved_subset L jm hdr)
        (fun c hc => allCandidates_target_mem L jm c hc) hfx
    · rw [generate_simulation_function, hfx] at hS
      simp at hS
  · intro hreach
    obtain ⟨fl2, hfl⟩ := fixpointLoop_ok_of_reachable
      (allCandidates L jm).length _ le_rfl (initialSolved L jm)
      (L.drivers.map Step.driverUpdate) L.joints.toFinset
      (initialSolved_subset L jm hdr)
      (fun c hc => allCandidates_target_mem L jm c hc) hreach
    exact ⟨fl2, by rw [generate_simulation_function, hfl]⟩
  · intro fl hok
    rcases hfx : fixpointLoop (allCandidates L jm) (initialSolved L jm)
        (L.drivers.map Step.driverUpdate) L.joints.toFinset with S' | fl2
    · rw [generate_simulation_function, hfx] at hok
      simp at hok
    · exact fixpointLoop_ok_reach (allCandidates L jm).length _ le_rfl
        (allCandidates L jm) (initialSolved L jm) (initialSolved L jm)
        (L.drivers.map Step.driverUpdate) L.joints.toFinset
        (fun c hc => hc) (fun j hj => .base j hj) fl2 hfx

/-- The joint store of a concrete solvable linkage: two fixed joints and one
free joint with a chooser. -/
noncomputable def jmW : JMap := fun i =>
  if i = 0 then ⟨"F1", some (0, 0), true, none⟩
  else if i = 1 then ⟨"F2", some (8, 0), true, none⟩
  else ⟨"J", none, false, some greater_y⟩

/-- Bar joining fixed joint 0 to free joint 2 at distance 5. -/
def barW1 : Bar := { label := "left", joints := [0, 2], segment_lengths := [5] }

/-- Bar joining fixed joint 1 to free joint 2 at distance 5. -/
def barW2 : Bar := { label := "right", joints := [1, 2], segment_lengths := [5] }

/-- A concrete solvable linkage: joint 2 is found by circle intersection from
the two fixed joints (a 3-4-5 configuration meeting at (4, 3)). -/
def LW : Linkage := { bars := [barW1, barW2], joints := [0, 1, 2], drivers := [] }

theorem allCandidates_LW :
    allCandidates LW jmW =
      [{ reqs := {0, 1}, target := 2,
         step := Step.intersection 2 0 1 barW1 barW2 }] := by
  simp [allCandidates, initialSolved, candidatesForJoint, LW, jmW, barW1,
    barW2, combinations2, productList, Linkage.bars_connected_to_joint,
    List.filter, List.dedup]

/-- Witness for C1: the success direction at a concrete linkage whose free
joint is reachable by one intersection rule from the two fixed joints. -/
theorem generate_fixpoint_characterisation_witness :
    ∃ fl, generate_simulation_function LW jmW = .ok fl := by
  refine (generate_fixpoint_characterisation LW jmW (by simp [LW])).2.1 ?_
  have h0 : (0 : ℕ) ∈ initialSolved LW jmW := by
    simp [initialSolved, LW, jmW, List.filter]
  have h1 : (1 : ℕ) ∈ initialSolved LW jmW := by
    simp [initialSolved, LW, jmW, List.filter]
  intro j hj
  have hj3 : j = 0 ∨ j = 1 ∨ j = 2 := by simpa [LW] using hj
  rcases hj3 with rfl | rfl | rfl
  · exact .base _ h0
  · exact .base _ h1
  · refine Reachable.rule
      { reqs := {0, 1}, target := 2,
        step := Step.intersection 2 0 1 barW1 barW2 } ?_ ?_
    · rw [allCandidates_LW]; exact List.mem_singleton_self _
    · intro r hr
      have : r = 0 ∨ r = 1 := by simpa using hr
      rcases this with rfl | rfl
      · exact .base _ h0
      · exact .base _ h1

theorem checkPairs_none_iff (bar : Bar) (prs : List (ℕ × ℕ)) (jm : JMap)
    (m : ℝ) : checkPairs bar prs jm m = none ↔
      ∀ pr ∈ prs, ∃ p1 p2, (jm pr.1).location = some p1 ∧
        (jm pr.2).location = some p2 ∧
        |bar.joint_distance pr.1 pr.2 - distance p1 p2| < m := by
  induction prs with
  | nil => simp [checkPairs]
  | cons pr rest ih =>
    obtain ⟨j1, j2⟩ := pr
    cases h1 : (jm j1).location with
    | none => simp [checkPairs, h1]
    | some p1 =>
      cases h2 : (jm j2).location with
      | none => simp [checkPairs, h1, h2]
      | some p2 =>
        by_cases hlt : |bar.joint_distance j1 j2 - distance p1 p2| < m
        · simp only [checkPairs, h1, h2, if_neg (not_not.mpr hlt), ih]
          constructor
          · intro hall
            intro pr hpr
            rcases List.mem_cons.mp hpr with rfl | hpr2
            · exact ⟨p1, p2, h1, h2, hlt⟩
            · exact hall pr hpr2
          · intro hall pr hpr
            exact hall pr (List.mem_cons_of_mem _ hpr)
        · simp only [checkPairs, h1, h2, if_pos hlt]
          constructor
          · intro h; simp at h
          · intro hall
            obtain ⟨p1', p2', hp1, hp2, hlt'⟩ := hall (j1, j2) (List.mem_cons_self _ _)
            rw [h1] at hp1
            rw [h2] at hp2
            cases hp1
            cases hp2
            exact absurd hlt' hlt

theorem checkPairs_infeasible (bar : Bar) (prs : List (ℕ × ℕ)) (jm : JMap)
    (m : ℝ) (lbl : String) (j1 j2 : ℕ)
    (h : checkPairs bar prs jm m = some (.infeasible lbl j1 j2)) :
    lbl = bar.label ∧ (j1, j2) ∈ prs ∧ ∃ p1 p2,
      (jm j1).location = some p1 ∧ (jm j2).location = some p2 ∧
      ¬ |bar.joint_distance j1 j2 - distance p1 p2| < m := by
  induction prs with
  | nil => simp [checkPairs] at h
  | cons pr rest ih =>
    obtain ⟨a, b⟩ := pr
    cases h1 : (jm a).location with
    | none => simp [checkPairs, h1] at h
    | some p1 =>
      cases h2 : (jm b).location with
      | none => simp [checkPairs, h1, h2] at h
      | some p2 =>
        simp only [checkPairs, h1, h2] at h
        by_cases hlt : |bar.joint_distance a b - distance p1 p2| < m
        · rw [if_neg (not_not.mpr hlt)] at h
          obtain ⟨hl, hmem, hrest⟩ := ih h
          exact ⟨hl, List.mem_cons_of_mem _ hmem, hrest⟩
        · rw [if_pos hlt] at h
          have hinj := h
          simp only [Option.some.injEq, SimError.infeasible.injEq] at hinj
          obtain ⟨rfl, rfl, rfl⟩ := hinj
          exact ⟨rfl, List.mem_cons_self _ _, p1, p2, h1, h2, hlt⟩

theorem runChecks_none_iff (bars : List Bar) (jm : JMap) (m : ℝ) :
    runChecks bars jm m = none ↔
      ∀ bar ∈ bars, checkPairs bar (adjacentPairs bar.joints) jm m = none := by
  induction bars with
  | nil => simp [runChecks]
  | cons bar rest ih =>
    cases hb : checkPairs bar (adjacentPairs bar.joints) jm m with
    | some e =>
      simp only [runChecks, hb]
      constructor
      · intro h; simp at h
      · intro hall
        have := hall bar (List.mem_cons_self _ _)
        rw [hb] at this
        simp at this
    | none =>
      simp only [runChecks, hb, ih]
      constructor
      · intro hall bar2 hb2
        rcases List.mem_cons.mp hb2 with rfl | hb3
        · exact hb
        · exact hall bar2 hb3
      · intro hall bar2 hb2
        exact hall bar2 (List.mem_cons_of_mem _ hb2)

theorem runChecks_infeasible (bars : List Bar) (jm : JMap) (m : ℝ)
    (lbl : String) (j1 j2 : ℕ)
    (h : runChecks bars jm m = some (.infeasible lbl j1 j2)) :
    ∃ bar ∈ bars,
      checkPairs bar (adjacentPairs bar.joints) jm m =
        some (.infeasible lbl j1 j2) := by
  induction bars with
  | nil => simp [runChecks] at h
  | cons bar rest ih =>
    cases hb : checkPairs bar (adjacentPairs bar.joints) jm m with
    | some e =>
      simp only [runChecks, hb, Option.some.injEq] at h
      exact ⟨bar, List.mem_cons_self _ _, by rw [hb, h]⟩
    | none =>
      simp only [runChecks, hb] at h
      obtain ⟨bar2, hmem, hcp⟩ := ih h
      exact ⟨bar2, List.mem_cons_of_mem _ hmem, hcp⟩

theorem runStep_error_not_infeasible (s : Step) (t : ℝ) (jm : JMap)
    (lbl : String) (j1 j2 : ℕ) :
    runStep s t jm ≠ .error (.infeasible lbl j1 j2) := by
  cases s with
  | driverUpdate d =>
    unfold runStep Driver.update_attachment_point Joint.assign_location
    by_cases h : (jm d.attachment_joint).fixed <;> simp [h, Except.map]
  | intersection u a b ab bb =>
    unfold runStep
    cases ha : (jm a).location with
    | none => simp [ha]
    | some la =>
      cases hb : (jm b).location with
      | none => simp [ha, hb]
      | some lb =>
        simp only [ha, hb]
        cases hc : circular_intersection la (ab.joint_distance u a) lb
            (bb.joint_distance u b) with
        | noSolution => simp
        | zeroDiv => simp
        | points p1 p2 =>
          simp only [updateLocation, Joint.set_location]
          cases hch : (jm u).chooser with
          | none => simp [hch, Except.map]
          | some ch =>
            simp only [hch]
            unfold Joint.assign_location
            by_cases h : (jm u).fixed <;> simp [h, Except.map]
  | extension joint bar j0 j1' =>
    unfold runStep
    cases ha : (jm j0).location with
    | none => simp [ha]
    | some l0 =>
      cases hb : (jm j1').location with
      | none => simp [ha, hb]
      | some l1 =>
        simp only [ha, hb, updateLocation, Joint.set_location]
        unfold Joint.assign_location
        by_cases h : (jm joint).fixed <;> simp [h, Except.map]

theorem runSteps_error_not_infeasible (fl : List Step) (t : ℝ) :
    ∀ (jm jm' : JMap) (lbl : String) (j1 j2 : ℕ),
      runSteps fl t jm ≠ (jm', some (.infeasible lbl j1 j2)) := by
  induction fl with
  | nil => intro jm jm' lbl j1 j2; simp [runSteps]
  | cons s rest ih =>
    intro jm jm' lbl j1 j2
    rw [runSteps]
    cases hstep : runStep s t jm with
    | error e =>
      intro heq
      simp only [Prod.mk.injEq, Option.some.injEq] at heq
      exact runStep_error_not_infeasible s t jm lbl j1 j2 (heq.2 ▸ hstep)
    | ok jm2 => exact ih jm2 jm' lbl j1 j2

theorem simFunctionRun_ok_checks (L : Linkage) (fl : List Step) (t : ℝ)
    (jm jm2 : JMap) (h : simFunctionRun L fl t jm = (jm2, none)) :
    runChecks L.bars jm2 (1 / 1000) = none := by
  unfold simFunctionRun at h
  cases hs : runSteps fl t jm with
  | mk jm' oe =>
    rw [hs] at h
    cases oe with
    | some e => simp at h
    | none =>
      simp only [Prod.mk.injEq] at h
      rw [← h.1]
      exact h.2

theorem simFunctionRun_infeasible (L : Linkage) (fl : List Step) (t : ℝ)
    (jm jm2 : JMap) (lbl : String) (j1 j2 : ℕ)
    (h : simFunctionRun L fl t jm = (jm2, some (.infeasible lbl j1 j2))) :
    runChecks L.bars jm2 (1 / 1000) = some (.infeasible lbl j1 j2) := by
  unfold simFunctionRun at h
  cases hs : runSteps fl t jm with
  | mk jm' oe =>
    rw [hs] at h
    cases oe with
    | some e =>
      simp only [Prod.mk.injEq, Option.some.injEq] at h
      exact absurd (by rw [hs, h.1, h.2])
        (runSteps_error_not_infeasible fl t jm jm2 lbl j1 j2)
    | none =>
      simp only [Prod.mk.injEq] at h
      rw [← h.1]
      exact h.2

theorem runBranch_ok_checks (L : Linkage) (t : ℝ) (st : LinkState) (k : ℤ)
    (fl : List Step) (st' : LinkState)
    (h : runBranch L t st k fl = (st', none)) :
    runChecks L.bars st'.jm (1 / 1000) = none := by
  unfold runBranch at h
  cases hs : simFunctionRun L fl t st.jm with
  | mk jm2 oe =>
    rw [hs] at h
    cases oe with
    | some e => simp at h
    | none =>
      simp only [Prod.mk.injEq] at h
      rw [← h.1]
      exact simFunctionRun_ok_checks L fl t st.jm jm2 hs

theorem runBranch_infeasible (L : Linkage) (t : ℝ) (st : LinkState) (k : ℤ)
    (fl : List Step) (st' : LinkState) (lbl : String) (j1 j2 : ℕ)
    (h : runBranch L t st k fl = (st', some (.infeasible lbl j1 j2))) :
    runChecks L.bars st'.jm (1 / 1000) = some (.infeasible lbl j1 j2) := by
  unfold runBranch at h
  cases hs : simFunctionRun L fl t st.jm with
  | mk jm2 oe =>
    rw [hs] at h
    cases oe with
    | some e =>
      simp only [Prod.mk.injEq, Option.some.injEq] at h
      rw [← h.1]
      exact simFunctionRun_infeasible L fl t st.jm jm2 lbl j1 j2
        (by rw [hs, h.2])
    | none => simp at h

theorem runBranch_error_cache (L : Linkage) (t : ℝ) (st : LinkState) (k : ℤ)
    (fl : List Step) (st' : LinkState) (e : SimError)
    (h : runBranch L t st k fl = (st', some e)) : st'.cache = st.cache := by
  unfold runBranch at h
  cases hs : simFunctionRun L fl t st.jm with
  | mk jm2 oe =>
    rw [hs] at h
    cases oe with
    | some e2 =>
      simp only [Prod.mk.injEq] at h
      rw [← h.1]
    | none => simp at h

theorem missBranch_ok_checks (L : Linkage) (t : ℝ) (st : LinkState) (k : ℤ)
    (st' : LinkState) (h : missBranch L t st k = (st', none)) :
    runChecks L.bars st'.jm (1 / 1000) = none := by
  unfold missBranch at h
  cases hsf : st.simulation_function with
  | none =>
    rw [hsf] at h
    cases hg : generate_simulation_function L st.jm with
    | error e => rw [hg] at h; simp at h
    | ok fl => rw [hg] at h; exact runBranch_ok_checks L t _ k fl st' h
  | some fl => rw [hsf] at h; exact runBranch_ok_checks L t st k fl st' h

theorem missBranch_infeasible (L : Linkage) (t : ℝ) (st : LinkState) (k : ℤ)
    (st' : LinkState) (lbl : String) (j1 j2 : ℕ)
    (h : missBranch L t st k = (st', some (.infeasible lbl j1 j2))) :
    runChecks L.bars st'.jm (1 / 1000) = some (.infeasible lbl j1 j2) := by
  unfold missBranch at h
  cases hsf : st.simulation_function with
  | none =>
    rw [hsf] at h
    cases hg : generate_simulation_function L st.jm with
    | error e =>
      rw [hg] at h
      simp only [Prod.mk.injEq, Option.some.injEq] at h
      cases hg2 : fixpointLoop (allCandidates L st.jm) (initialSolved L st.jm)
          (L.drivers.map Step.driverUpdate) L.joints.toFinset with
      | error S =>
        rw [generate_simulation_function, hg2] at hg
        have huns : SimError.unsolvable S = e := by simpa using hg
        rw [h.2] at huns
        simp at huns
      | ok fl => rw [generate_simulation_function, hg2] at hg; simp at hg
    | ok fl => rw [hg] at h; exact runBranch_infeasible L t _ k fl st' lbl j1 j2 h
  | some fl => rw [hsf] at h; exact runBranch_infeasible L t st k fl st' lbl j1 j2 h

theorem missBranch_error_no_entry (L : Linkage) (t : ℝ) (st : LinkState)
    (k : ℤ) (st' : LinkState) (e : SimError)
    (hmiss : cacheLookup st k = none)
    (h : missBranch L t st k = (st', some e)) : cacheLookup st' k = none := by
  unfold missBranch at h
  cases hsf : st.simulation_function with
  | none =>
    rw [hsf] at h
    cases hg : generate_simulation_function L st.jm with
    | error e2 =>
      rw [hg] at h
      simp only [Prod.mk.injEq] at h
      rw [← h.1]
      exact hmiss
    | ok fl =>
      rw [hg] at h
      have := runBranch_error_cache L t _ k fl st' e h
      simpa [cacheLookup, this] using hmiss
  | some fl =>
    rw [hsf] at h
    have := runBranch_error_cache L t st k fl st' e h
    simpa [cacheLookup, this] using hmiss

theorem simulate_eq_missBranch_some (L : Linkage) (t : ℝ) (st : LinkState)
    (c : ℤ → Option Snapshot) (ht : 0 ≤ t ∧ t ≤ 1) (hc : st.cache = some c)
    (hnone : c ⌊(10000 : ℝ) * t⌋ = none) :
    L.simulate_to_time t st = missBranch L t st ⌊(10000 : ℝ) * t⌋ := by
  unfold Linkage.simulate_to_time
  rw [if_neg (not_not.mpr ht)]
  simp only [hc, hnone]

theorem simulate_eq_missBranch_none (L : Linkage) (t : ℝ) (st : LinkState)
    (ht : 0 ≤ t ∧ t ≤ 1) (hc : st.cache = none) :
    L.simulate_to_time t st =
      missBranch L t { st with cache := some (fun _ => none) }
        ⌊(10000 : ℝ) * t⌋ := by
  unfold Linkage.simulate_to_time
  rw [if_neg (not_not.mpr ht)]
  simp only [hc]

theorem simulate_miss_shape (L : Linkage) (t : ℝ) (st : LinkState)
    (ht : 0 ≤ t ∧ t ≤ 1) (hmiss : cacheLookup st (⌊(10000 : ℝ) * t⌋) = none) :
    ∃ st1 : LinkState,
      L.simulate_to_time t st = missBranch L t st1 ⌊(10000 : ℝ) * t⌋ ∧
      cacheLookup st1 (⌊(10000 : ℝ) * t⌋) = none := by
  cases hc : st.cache with
  | none =>
    exact ⟨{ st with cache := some (fun _ => none) },
      simulate_eq_missBranch_none L t st ht hc, by simp [cacheLookup]⟩
  | some c =>
    have hnone : c ⌊(10000 : ℝ) * t⌋ = none := by
      simpa [cacheLookup, hc] using hmiss
    exact ⟨st, simulate_eq_missBranch_some L t st c ht hc hnone, hmiss⟩

/-- C2: whenever `simulate_to_time t` executes the pipeline (a cache miss)
and returns successfully, every bar's chain-adjacent joint pairs end with
solved locations whose Euclidean distance differs from the bar's declared
distance for the pair by strictly less than the default tolerance `0.001`;
and whenever the call fails with the infeasible-configuration
`InvalidLinkageError`, the error names a bar of the linkage and a
chain-adjacent pair of its joints whose solved locations violate that strict
tolerance. -/
theorem simulate_distance_consistency (L : Linkage) (t : ℝ) (st : LinkState)
    (hmiss : cacheLookup st (⌊(10000 : ℝ) * t⌋) = none) :
    ((L.simulate_to_time t st).2 = none →
      ∀ bar ∈ L.bars, ∀ pr ∈ adjacentPairs bar.joints,
        ∃ p1 p2, ((L.simulate_to_time t st).1.jm pr.1).location = some p1 ∧
          ((L.simulate_to_time t st).1.jm pr.2).location = some p2 ∧
          |bar.joint_distance pr.1 pr.2 - distance p1 p2| < 1 / 1000)
    ∧ (∀ lbl j1 j2,
        (L.simulate_to_time t st).2 = some (.infeasible lbl j1 j2) →
        ∃ bar ∈ L.bars, lbl = bar.label ∧
          (j1, j2) ∈ adjacentPairs bar.joints ∧
          ∃ p1 p2, ((L.simulate_to_time t st).1.jm j1).location = some p1 ∧
            ((L.simulate_to_time t st).1.jm j2).location = some p2 ∧
            ¬ |bar.joint_distance j1 j2 - distance p1 p2| < 1 / 1000) := by
  by_cases ht : 0 ≤ t ∧ t ≤ 1
  case neg =>
    have hout : L.simulate_to_time t st = (st, some .timeOutOfRange) := by
      unfold Linkage.simulate_to_time
      rw [if_pos ht]
    rw [hout]
    constructor
    · intro h; simp at h
    · intro lbl j1 j2 h; simp at h
  case pos =>
    obtain ⟨st1, heq, _⟩ := simulate_miss_shape L t st ht hmiss
    rcases hres : missBranch L t st1 ⌊(10000 : ℝ) * t⌋ with ⟨st', r⟩
    rw [heq, hres]
    constructor
    · intro hnone
      have hr : r = none := hnone
      subst hr
      have hchecks := missBranch_ok_checks L t st1 _ st' hres
      intro bar hbar pr hpr
      have hbarchk := (runChecks_none_iff L.bars st'.jm (1 / 1000)).mp
        hchecks bar hbar
      exact (checkPairs_none_iff bar _ st'.jm (1 / 1000)).mp hbarchk pr hpr
    · intro lbl j1 j2 hinf
      have hr : r = some (.infeasible lbl j1 j2) := hinf
      subst hr
      have hrc := missBranch_infeasible L t st1 _ st' lbl j1 j2 hres
      obtain ⟨bar, hbar, hcp⟩ :=
        runChecks_infeasible L.bars st'.jm _ lbl j1 j2 hrc
      obtain ⟨hl, hmem, p1, p2, h1, h2, hnlt⟩ :=
        checkPairs_infeasible bar _ st'.jm _ lbl j1 j2 hcp
      exact ⟨bar, hbar, hl, hmem, p1, p2, h1, h2, hnlt⟩

/-- C9: if a `simulate_to_time` call on a cache miss fails (the pipeline or
its compilation raises), then no cache entry is created for the time's
quantized bucket: the snapshot is written only after the compiled
`sim_function` runs to completion, so a later call for the same bucket will
take the miss path again instead of serving a stale snapshot. -/
theorem simulate_error_no_cache_entry (L : Linkage) (t : ℝ) (st : LinkState)
    (e : SimError) (hmiss : cacheLookup st (⌊(10000 : ℝ) * t⌋) = none)
    (herr : (L.simulate_to_time t st).2 = some e) :
    cacheLookup (L.simulate_to_time t st).1 (⌊(10000 : ℝ) * t⌋) = none := by
  by_cases ht : 0 ≤ t ∧ t ≤ 1
  case neg =>
    have hout : L.simulate_to_time t st = (st, some .timeOutOfRange) := by
      unfold Linkage.simulate_to_time
      rw [if_pos ht]
    rw [hout]
    exact hmiss
  case pos =>
    obtain ⟨st1, heq, hm1⟩ := simulate_miss_shape L t st ht hmiss
    rcases hres : missBranch L t st1 ⌊(10000 : ℝ) * t⌋ with ⟨st', r⟩
    rw [heq, hres] at herr ⊢
    have hr : r = some e := herr
    subst hr
    exact missBranch_error_no_entry L t st1 _ st' e hm1 hres

theorem sqrt_eval (x c : ℝ) (h : x = c ^ 2) (hc : 0 ≤ c) :
    Real.sqrt x = c := by
  rw [h]
  exact Real.sqrt_sq hc

theorem circular_intersection_eval (xA yA xB yB ra rb L b h : ℝ)
    (hd : (xA - xB) ^ 2 + (yA - yB) ^ 2 = L ^ 2) (hL : 0 < L)
    (hb : (rb ^ 2 - ra ^ 2 + L ^ 2) / (2 * L) = b)
    (hh : rb ^ 2 - b ^ 2 = h ^ 2) (hh0 : 0 ≤ h) :
    circular_intersection (xA, yA) ra (xB, yB) rb =
      CircResult.points
        (xB + b * (xA - xB) / L + h * (yB - yA) / L,
         yB + b * (yA - yB) / L - h * (xB - xA) / L)
        (xB + b * (xA - xB) / L - h * (yB - yA) / L,
         yB + b * (yA - yB) / L + h * (xB - xA) / L) := by
  unfold circular_intersection
  dsimp only
  rw [sqrt_eval _ _ hd hL.le, if_neg hL.ne', hb, hh,
    if_neg (not_lt.mpr (sq_nonneg h)), sqrt_eval _ _ rfl hh0]

theorem circular_intersection_eval_none (xA yA xB yB ra rb L : ℝ)
    (hd : (xA - xB) ^ 2 + (yA - yB) ^ 2 = L ^ 2) (hL : 0 < L)
    (hneg : rb ^ 2 - ((rb ^ 2 - ra ^ 2 + L ^ 2) / (2 * L)) ^ 2 < 0) :
    circular_intersection (xA, yA) ra (xB, yB) rb =
      CircResult.noSolution := by
  unfold circular_intersection
  dsimp only
  rw [sqrt_eval _ _ hd hL.le, if_neg hL.ne', if_pos hneg]

theorem runSteps_one_ok (s : Step) (t : ℝ) (jm jm2 : JMap)
    (h : runStep s t jm = .ok jm2) : runSteps [s] t jm = (jm2, none) := by
  simp [runSteps, h]

theorem runSteps_one_error (s : Step) (t : ℝ) (jm : JMap) (e : SimError)
    (h : runStep s t jm = .error e) : runSteps [s] t jm = (jm, some e) := by
  simp [runSteps, h]

theorem simFunctionRun_eval_ok (L : Linkage) (fl : List Step) (t : ℝ)
    (jm jm2 : JMap) (h1 : runSteps fl t jm = (jm2, none))
    (h2 : runChecks L.bars jm2 (1 / 1000) = none) :
    simFunctionRun L fl t jm = (jm2, none) := by
  unfold simFunctionRun
  rw [h1]
  dsimp only
  rw [h2]

theorem simFunctionRun_eval_error (L : Linkage) (fl : List Step) (t : ℝ)
    (jm jm2 : JMap) (e : SimError) (h1 : runSteps fl t jm = (jm2, some e)) :
    simFunctionRun L fl t jm = (jm2, some e) := by
  unfold simFunctionRun
  rw [h1]

theorem runBranch_eval_ok (L : Linkage) (t : ℝ) (st : LinkState) (k : ℤ)
    (fl : List Step) (jm2 : JMap) (h : simFunctionRun L fl t st.jm = (jm2, none)) :
    runBranch L t st k fl =
      ({ st with
          jm := jm2,
          cache := some (cacheInsert (st.cache.getD (fun _ => none)) k
            ((L.joints.filter (fun j => !(jm2 j).fixed)).map
              (fun j => (j, (jm2 j).location)))) }, none) := by
  unfold runBranch
  rw [h]

theorem runBranch_eval_error (L : Linkage) (t : ℝ) (st : LinkState) (k : ℤ)
    (fl : List Step) (jm2 : JMap) (e : SimError)
    (h : simFunctionRun L fl t st.jm = (jm2, some e)) :
    runBranch L t st k fl = ({ st with jm := jm2 }, some e) := by
  unfold runBranch
  rw [h]

theorem missBranch_none_generate (L : Linkage) (t : ℝ) (st : LinkState)
    (k : ℤ) (fl : List Step) (hsf : st.simulation_function = none)
    (hg : generate_simulation_function L st.jm = .ok fl) :
    missBranch L t st k =
      runBranch L t { st with simulation_function := some fl } k fl := by
  unfold missBranch
  rw [hsf, hg]

theorem fixpointLoop_step_done (cands cands' : List Candidate)
    (solved solved' : Finset ℕ) (fl steps : List Step) (J : Finset ℕ)
    (flag : Bool) (hop : onePass cands solved = (cands', solved', steps, flag))
    (hJ : solved' = J) :
    fixpointLoop cands solved fl J = .ok (fl ++ steps) := by
  rw [fixpointLoop, hop]
  dsimp only
  rw [if_pos hJ]

theorem fixpointLoop_step_continue (cands cands' : List Candidate)
    (solved solved' : Finset ℕ) (fl steps : List Step) (J : Finset ℕ)
    (hop : onePass cands solved = (cands', solved', steps, true))
    (hJ : solved' ≠ J) :
    fixpointLoop cands solved fl J =
      fixpointLoop cands' solved' (fl ++ steps) J := by
  rw [fixpointLoop, hop]
  dsimp only
  rw [if_neg hJ, dif_pos rfl]

theorem fixpointLoop_step_stall (cands cands' : List Candidate)
    (solved solved' : Finset ℕ) (fl steps : List Step) (J : Finset ℕ)
    (hop : onePass cands solved = (cands', solved', steps, false))
    (hJ : solved' ≠ J) :
    fixpointLoop cands solved fl J = .error (J \ solved') := by
  rw [fixpointLoop, hop]
  dsimp only
  rw [if_neg hJ, dif_neg (by simp)]

theorem generate_eval (L : Linkage) (jm : JMap) (fl : List Step)
    (hfix : fixpointLoop (allCandidates L jm) (initialSolved L jm)
        (L.drivers.map Step.driverUpdate) L.joints.toFinset = .ok fl) :
    generate_simulation_function L jm = .ok fl := by
  unfold generate_simulation_function
  rw [hfix]

/-- The candidate by which joint 2 of `LW` is solved. -/
def cW : Candidate :=
  { reqs := {0, 1}, target := 2, step := Step.intersection 2 0 1 barW1 barW2 }

/-- The initial state of a freshly constructed `LW` linkage object: joint
locations as given, an empty cache, no memoized pipeline. -/
noncomputable def stW : LinkState :=
  { jm := jmW, cache := some (fun _ => none), simulation_function := none }

/-- The joint store after the LW pipeline runs at time 0: joint 2 is solved
at (4, 3). -/
noncomputable def jmW2 : JMap :=
  setJoint jmW 2 { jmW 2 with location := some (4, 3) }

theorem initialSolved_LW : initialSolved LW jmW = {0, 1} := by
  simp [initialSolved, LW, jmW, List.filter]

theorem generate_LW :
    generate_simulation_function LW jmW = .ok [cW.step] := by
  refine generate_eval LW jmW [cW.step] ?_
  rw [allCandidates_LW, initialSolved_LW]
  have honep : onePass [cW] ({0, 1} : Finset ℕ) =
      ([], insert 2 {0, 1}, [cW.step], true) := by
    rw [onePass, if_pos (by decide), onePass]
    rfl
  have := fixpointLoop_step_done [cW] [] ({0, 1} : Finset ℕ)
    (insert 2 {0, 1}) (LW.drivers.map Step.driverUpdate) [cW.step]
    LW.joints.toFinset true honep (by decide)
  simpa [LW] using this

theorem circ_LW :
    circular_intersection (0, 0) (barW1.joint_distance 2 0) (8, 0)
      (barW2.joint_distance 2 1) = CircResult.points (4, -3) (4, 3) := by
  have hjd1 : barW1.joint_distance 2 0 = 5 := by
    norm_num [Bar.joint_distance, Bar.origin_distance, originDistanceGo, barW1]
  have hjd2 : barW2.joint_distance 2 1 = 5 := by
    norm_num [Bar.joint_distance, Bar.origin_distance, originDistanceGo, barW2]
  rw [hjd1, hjd2,
    circular_intersection_eval 0 0 8 0 5 5 8 4 3 (by norm_num) (by norm_num)
      (by norm_num) (by norm_num) (by norm_num)]
  simp only [CircResult.points.injEq, Prod.mk.injEq]
  norm_num

theorem runStep_LW : runStep cW.step 0 jmW = .ok jmW2 := by
  have hgy : greater_y (4, -3) (4, 3) = ((4 : ℝ), (3 : ℝ)) := by
    unfold greater_y
    norm_num
  show runStep (Step.intersection 2 0 1 barW1 barW2) 0 jmW = .ok jmW2
  unfold runStep
  dsimp only
  rw [show (jmW 0).location = some ((0 : ℝ), (0 : ℝ)) from rfl,
    show (jmW 1).location = some ((8 : ℝ), (0 : ℝ)) from rfl]
  dsimp only
  rw [circ_LW]
  dsimp only
  unfold updateLocation Joint.set_location
  rw [show (jmW 2).chooser = some greater_y from rfl]
  dsimp only
  rw [hgy]
  rfl

theorem dist1_LW : distance (0, 0) (4, 3) = 5 := by
  show Real.sqrt (((0 : ℝ) - 4) ^ 2 + ((0 : ℝ) - 3) ^ 2) = 5
  exact sqrt_eval _ 5 (by norm_num) (by norm_num)

theorem dist2_LW : distance (8, 0) (4, 3) = 5 := by
  show Real.sqrt (((8 : ℝ) - 4) ^ 2 + ((0 : ℝ) - 3) ^ 2) = 5
  exact sqrt_eval _ 5 (by norm_num) (by norm_num)

theorem checks_LW : runChecks LW.bars jmW2 (1 / 1000) = none := by
  rw [runChecks_none_iff]
  intro bar hbar
  have hb2 : bar = barW1 ∨ bar = barW2 := by simpa [LW] using hbar
  rcases hb2 with rfl | rfl
  · rw [checkPairs_none_iff]
    intro pr hpr
    have hpr2 : pr = ((0 : ℕ), (2 : ℕ)) := by
      simpa [barW1, adjacentPairs] using hpr
    subst hpr2
    refine ⟨(0, 0), (4, 3), rfl, rfl, ?_⟩
    rw [show barW1.joint_distance 0 2 = 5 by
        norm_num [Bar.joint_distance, Bar.origin_distance, originDistanceGo,
          barW1], dist1_LW]
    norm_num
  · rw [checkPairs_none_iff]
    intro pr hpr
    have hpr2 : pr = ((1 : ℕ), (2 : ℕ)) := by
      simpa [barW2, adjacentPairs] using hpr
    subst hpr2
    refine ⟨(8, 0), (4, 3), rfl, rfl, ?_⟩
    rw [show barW2.joint_distance 1 2 = 5 by
        norm_num [Bar.joint_distance, Bar.origin_distance, originDistanceGo,
          barW2], dist2_LW]
    norm_num

theorem simulate_LW_success : (LW.simulate_to_time 0 stW).2 = none := by
  rw [simulate_eq_missBranch_some LW 0 stW (fun _ => none)
      ⟨by norm_num, by norm_num⟩ rfl rfl]
  rw [missBranch_none_generate LW 0 stW _ [cW.step] rfl generate_LW]
  rw [runBranch_eval_ok LW 0 _ _ [cW.step] jmW2
    (simFunctionRun_eval_ok LW [cW.step] 0 jmW jmW2
      (runSteps_one_ok _ _ _ _ runStep_LW) checks_LW)]

/-- Witness for C2: in the concrete solvable LW linkage, after a successful
`simulate_to_time 0` on a cache miss, the adjacent pair of the bar "left"
satisfies the strict 0.001 distance tolerance. -/
theorem simulate_distance_consistency_witness :
    ∃ p1 p2, ((LW.simulate_to_time 0 stW).1.jm 0).location = some p1 ∧
      ((LW.simulate_to_time 0 stW).1.jm 2).location = some p2 ∧
      |barW1.joint_distance 0 2 - distance p1 p2| < 1 / 1000 :=
  (simulate_distance_consistency LW 0 stW rfl).1 simulate_LW_success barW1
    (by simp [LW]) (0, 2) (by simp [barW1, adjacentPairs])

/-- The joint store of a concrete infeasible linkage: the two fixed joints
are 10 apart while both bars have length 1. -/
def jm9 : JMap := fun i =>
  if i = 0 then ⟨"G1", some (0, 0), true, none⟩
  else if i = 1 then ⟨"G2", some (10, 0), true, none⟩
  else ⟨"K", none, false, none⟩

/-- Bar of length 1 joining fixed joint 0 to free joint 2. -/
def bar91 : Bar := { label := "b1", joints := [0, 2], segment_lengths := [1] }

/-- Bar of length 1 joining fixed joint 1 to free joint 2. -/
def bar92 : Bar := { label := "b2", joints := [1, 2], segment_lengths := [1] }

/-- A linkage whose pipeline compiles but whose intersection step finds no
real solution at run time. -/
def L9 : Linkage := { bars := [bar91, bar92], joints := [0, 1, 2], drivers := [] }

/-- The candidate by which joint 2 of `L9` would be solved. -/
def c9c : Candidate :=
  { reqs := {0, 1}, target := 2, step := Step.intersection 2 0 1 bar91 bar92 }

/-- The initial state of a freshly constructed `L9` linkage object. -/
def st9 : LinkState :=
  { jm := jm9, cache := some (fun _ => none), simulation_function := none }

theorem allCandidates_L9 : allCandidates L9 jm9 = [c9c] := by
  simp [allCandidates, initialSolved, candidatesForJoint, L9, jm9, bar91,
    bar92, combinations2, productList, Linkage.bars_connected_to_joint,
    List.filter, List.dedup, c9c]

theorem initialSolved_L9 : initialSolved L9 jm9 = {0, 1} := by
  simp [initialSolved, L9, jm9, List.filter]

theorem generate_L9 : generate_simulation_function L9 jm9 = .ok [c9c.step] := by
  refine generate_eval L9 jm9 [c9c.step] ?_
  rw [allCandidates_L9, initialSolved_L9]
  have honep : onePass [c9c] ({0, 1} : Finset ℕ) =
      ([], insert 2 {0, 1}, [c9c.step], true) := by
    rw [onePass, if_pos (by decide), onePass]
    rfl
  have := fixpointLoop_step_done [c9c] [] ({0, 1} : Finset ℕ)
    (insert 2 {0, 1}) (L9.drivers.map Step.driverUpdate) [c9c.step]
    L9.joints.toFinset true honep (by decide)
  simpa [L9] using this

theorem circ_L9 :
    circular_intersection (0, 0) (bar91.joint_distance 2 0) (10, 0)
      (bar92.joint_distance 2 1) = CircResult.noSolution := by
  have hjd1 : bar91.joint_distance 2 0 = 1 := by
    norm_num [Bar.joint_distance, Bar.origin_distance, originDistanceGo, bar91]
  have hjd2 : bar92.joint_distance 2 1 = 1 := by
    norm_num [Bar.joint_distance, Bar.origin_distance, originDistanceGo, bar92]
  rw [hjd1, hjd2]
  exact circular_intersection_eval_none 0 0 10 0 1 1 10 (by norm_num)
    (by norm_num) (by norm_num)

theorem runStep_L9 : runStep c9c.step 0 jm9 =
    .error (.noIntersection 2 0 1 "b1" "b2") := by
  show runStep (Step.intersection 2 0 1 bar91 bar92) 0 jm9 = _
  unfold runStep
  dsimp only
  rw [show (jm9 0).location = some ((0 : ℝ), (0 : ℝ)) from rfl,
    show (jm9 1).location = some ((10 : ℝ), (0 : ℝ)) from rfl]
  dsimp only
  rw [circ_L9]
  rfl

theorem simulate_L9_error :
    (L9.simulate_to_time 0 st9).2 = some (.noIntersection 2 0 1 "b1" "b2") := by
  rw [simulate_eq_missBranch_some L9 0 st9 (fun _ => none)
      ⟨by norm_num, by norm_num⟩ rfl rfl]
  rw [missBranch_none_generate L9 0 st9 _ [c9c.step] rfl generate_L9]
  rw [runBranch_eval_error L9 0 _ _ [c9c.step] jm9 _
    (simFunctionRun_eval_error L9 [c9c.step] 0 jm9 jm9 _
      (runSteps_one_error _ _ _ _ runStep_L9))]

/-- Witness for C9: in the concrete infeasible L9 linkage, the failing
`simulate_to_time 0` call leaves no cache entry for time bucket 0. -/
theorem simulate_error_no_cache_entry_witness :
    cacheLookup (L9.simulate_to_time 0 st9).1 (⌊(10000 : ℝ) * 0⌋) = none :=
  simulate_error_no_cache_entry L9 0 st9 (.noIntersection 2 0 1 "b1" "b2")
    rfl simulate_L9_error

/-!
The deterministic-recomputation scenario.  The Python solver closure
`solver_for_joint_on_bar_given_joints(joint, bar, other_joints)` is built
inside the loop `for pair in combinations(other_joints, 2)` but receives the
whole `other_joints` list instead of `pair`, so the compiled step always
reads `other_joints[0]` and `other_joints[1]` even when the activated
candidate's requirement set was a different pair.  On a bar with at least
four joints the pipeline can therefore read a joint that is only solved by a
*later* step — a stale location.  The linkage below exhibits the resulting
non-determinism: joint ids 0 = Q, 1 = P, 2 = S, 3 = R (fixed), 4 = F
(fixed), one four-joint bar [P, Q, R, S] with segment lengths [1, 2, 1] and
an anchor bar [F, P] of length 5.  P is solved by circle intersection from R
and F, S by extension — whose step reads (P, Q) although its requirement was
{P, R} — and Q last.  Q starts at (1, 1 - 1/10000), slightly off its true
position (1, 1); the first run succeeds within the 0.001 tolerance but
computes S from the stale Q, and the rerun after `invalidate_caches` reads
the corrected Q and puts S elsewhere.
-/

/-- The perturbation of Q's initial location. -/
noncomputable def dC3 : ℝ := 1 / 10000

/-- Shorthand for `sqrt (1 + dC3 ^ 2)`, the length of the stale direction
vector from P to the perturbed Q. -/
noncomputable def sC3 : ℝ := Real.sqrt (1 + dC3 ^ 2)

/-- The four-joint bar [P, Q, R, S]. -/
def quadC3 : Bar :=
  { label := "quad", joints := [1, 0, 3, 2], segment_lengths := [1, 2, 1] }

/-- The anchor bar [F, P] of length 5. -/
def b2C3 : Bar := { label := "anchor", joints := [4, 1], segment_lengths := [5] }

/-- The five-joint linkage with the four-joint bar. -/
def Lc3 : Linkage :=
  { bars := [quadC3, b2C3], joints := [0, 1, 2, 3, 4], drivers := [] }

/-- Initial joint store: Q at (1, 1 - 1/10000), P and S unknown, R fixed at
(3, 1), F fixed at (3, -3); P disambiguated by `lesser_x`. -/
noncomputable def jmC3 : JMap := fun i =>
  if i = 0 then ⟨"Q", some (1, 1 - dC3), false, none⟩
  else if i = 1 then ⟨"P", none, false, some lesser_x⟩
  else if i = 2 then ⟨"S", none, false, none⟩
  else if i = 3 then ⟨"R", some (3, 1), true, none⟩
  else ⟨"F", some (3, -3), true, none⟩

/-- The initial state of a freshly constructed `Lc3` linkage object. -/
noncomputable def stC3 : LinkState :=
  { jm := jmC3, cache := some (fun _ => none), simulation_function := none }

/-- First activated step: P by intersection from R and F. -/
def stepPC3 : Step := Step.intersection 1 3 4 quadC3 b2C3

/-- Second activated step: S by extension; the activated candidate required
{P, R} but the solver reads `other_joints[0:2] = (P, Q)`. -/
def stepSC3 : Step := Step.extension 2 quadC3 1 0

/-- Third activated step: Q by extension from (P, R). -/
def stepQC3 : Step := Step.extension 0 quadC3 1 3

theorem generate_C3 (jm : JMap) (h : initialSolved Lc3 jm = {3, 4}) :
    generate_simulation_function Lc3 jm =
      .ok [stepPC3, stepSC3, stepQC3] := by
  refine generate_eval Lc3 jm _ ?_
  have hac : allCandidates Lc3 jm =
      (Lc3.joints.filter (fun j => j ∉ ({3, 4} : Finset ℕ))).flatMap
        (candidatesForJoint Lc3) := by
    unfold allCandidates
    rw [h]
  rw [hac, h]
  rw [fixpointLoop_step_continue _ _ _ _ _ _ _ rfl (by decide)]
  rw [fixpointLoop_step_done _ _ _ _ _ _ _ _ rfl (by decide)]
  rfl

theorem runSteps_cons_ok (s : Step) (rest : List Step) (t : ℝ) (jm jm2 : JMap)
    (h : runStep s t jm = .ok jm2) :
    runSteps (s :: rest) t jm = runSteps rest t jm2 := by
  rw [runSteps, h]

theorem line_angle_horizontal (x1 y1 x2 : ℝ) (h : x1 < x2) :
    line_angle (x1, y1) (x2, y1) = 0 := by
  unfold line_angle
  dsimp only
  have hz : (⟨x2 - x1, y1 - y1⟩ : ℂ) = ((x2 - x1 : ℝ) : ℂ) := by
    apply Complex.ext <;> simp
  rw [hz, Complex.arg_ofReal_of_nonneg (by linarith)]

/-- The joint store after the first run's intersection step: P at (0, 1). -/
noncomputable def jmD1 : JMap :=
  setJoint jmC3 1 { jmC3 1 with location := some (0, 1) }

/-- Where the first run puts S, computed from the stale location of Q. -/
noncomputable def S1C3 : Point := (1 + 3 / sC3, 1 - dC3 - 3 * dC3 / sC3)

/-- The joint store after the first run's S step. -/
noncomputable def jmD2 : JMap :=
  setJoint jmD1 2 { jmD1 2 with location := some S1C3 }

/-- The joint store at the end of the first run: Q corrected to (1, 1). -/
noncomputable def jmD3 : JMap :=
  setJoint jmD2 0 { jmD2 0 with location := some (1, 1) }

theorem circ_C3 :
    circular_intersection (3, 1) (quadC3.joint_distance 1 3) (3, -3)
      (b2C3.joint_distance 1 4) = CircResult.points (0, 1) (6, 1) := by
  have hjd1 : quadC3.joint_distance 1 3 = 3 := by
    norm_num [Bar.joint_distance, Bar.origin_distance, originDistanceGo, quadC3]
  have hjd2 : b2C3.joint_distance 1 4 = 5 := by
    norm_num [Bar.joint_distance, Bar.origin_distance, originDistanceGo, b2C3]
  rw [hjd1, hjd2,
    circular_intersection_eval 3 1 3 (-3) 3 5 4 4 3 (by norm_num)
      (by norm_num) (by norm_num) (by norm_num) (by norm_num)]
  simp only [CircResult.points.injEq, Prod.mk.injEq]
  norm_num

theorem runStep_P_C3 (jm : JMap) (h3 : jm 3 = jmC3 3) (h4 : jm 4 = jmC3 4)
    (h1f : (jm 1).fixed = false) (hch : (jm 1).chooser = some lesser_x) :
    runStep stepPC3 0 jm =
      .ok (setJoint jm 1 { jm 1 with location := some (0, 1) }) := by
  show runStep (Step.intersection 1 3 4 quadC3 b2C3) 0 jm = _
  unfold runStep
  dsimp only
  rw [h3, h4,
    show (jmC3 3).location = some ((3 : ℝ), (1 : ℝ)) from rfl,
    show (jmC3 4).location = some ((3 : ℝ), (-3 : ℝ)) from rfl]
  dsimp only
  rw [circ_C3]
  dsimp only
  unfold updateLocation Joint.set_location
  rw [hch]
  dsimp only
  rw [show lesser_x (0, 1) (6, 1) = ((0 : ℝ), (1 : ℝ)) from by
    unfold lesser_x; norm_num]
  unfold Joint.assign_location
  rw [h1f]
  simp [Except.map, hch]

theorem cos_sin_line_angle_C3 :
    Real.cos (line_angle (0, 1) (1, 1 - dC3)) = 1 / sC3 ∧
    Real.sin (line_angle (0, 1) (1, 1 - dC3)) = -dC3 / sC3 := by
  have hz : (⟨(1 : ℝ) - 0, (1 - dC3) - 1⟩ : ℂ) = ⟨1, -dC3⟩ := by
    apply Complex.ext
    · norm_num
    · show (1 - dC3) - 1 = -dC3
      ring
  have habs : Complex.abs ⟨1, -dC3⟩ = sC3 := by
    rw [Complex.abs_apply, Complex.normSq_mk]
    unfold sC3
    congr 1
    ring
  have hne : (⟨1, -dC3⟩ : ℂ) ≠ 0 := by
    intro h
    have hre := congrArg Complex.re h
    simp at hre
  unfold line_angle
  dsimp only
  rw [hz]
  constructor
  · rw [Complex.cos_arg hne, habs]
  · rw [Complex.sin_arg, habs]

theorem runStep_S_C3_run1 : runStep stepSC3 0 jmD1 = .ok jmD2 := by
  show runStep (Step.extension 2 quadC3 1 0) 0 jmD1 = _
  unfold runStep
  dsimp only
  rw [show (jmD1 1).location = some ((0 : ℝ), (1 : ℝ)) from rfl,
    show (jmD1 0).location = some ((1 : ℝ), 1 - dC3) from rfl]
  dsimp only
  have hod : quadC3.origin_distance 2 - quadC3.origin_distance 0 = 3 := by
    norm_num [Bar.origin_distance, originDistanceGo, quadC3]
  rw [hod]
  have hle : line_extension (0, 1) (1, 1 - dC3) 3 = S1C3 := by
    unfold line_extension
    rw [cos_sin_line_angle_C3.1, cos_sin_line_angle_C3.2]
    unfold S1C3
    refine Prod.ext ?_ ?_ <;> (dsimp only; ring)
  rw [hle]
  unfold updateLocation Joint.set_location Joint.assign_location
  rw [show (jmD1 2).fixed = false from rfl]
  rfl

theorem runStep_S_C3_run2 (jm : JMap) (h1 : (jm 1).location = some (0, 1))
    (h0loc : (jm 0).location = some (1, 1)) (h2f : (jm 2).fixed = false) :
    runStep stepSC3 0 jm =
      .ok (setJoint jm 2 { jm 2 with location := some (4, 1) }) := by
  show runStep (Step.extension 2 quadC3 1 0) 0 jm = _
  unfold runStep
  dsimp only
  rw [h1, h0loc]
  dsimp only
  have hod : quadC3.origin_distance 2 - quadC3.origin_distance 0 = 3 := by
    norm_num [Bar.origin_distance, originDistanceGo, quadC3]
  rw [hod]
  have hle : line_extension (0, 1) (1, 1) 3 = ((4 : ℝ), (1 : ℝ)) := by
    unfold line_extension
    rw [line_angle_horizontal 0 1 1 (by norm_num)]
    norm_num [Real.cos_zero, Real.sin_zero, Prod.ext_iff]
  rw [hle]
  unfold updateLocation Joint.set_location Joint.assign_location
  rw [h2f]
  simp [Except.map]

theorem runStep_Q_C3 (jm : JMap) (h1 : (jm 1).location = some (0, 1))
    (h3 : (jm 3).location = some (3, 1)) (h0f : (jm 0).fixed = false) :
    runStep stepQC3 0 jm =
      .ok (setJoint jm 0 { jm 0 with location := some (1, 1) }) := by
  show runStep (Step.extension 0 quadC3 1 3) 0 jm = _
  unfold runStep
  dsimp only
  rw [h1, h3]
  dsimp only
  have hod : quadC3.origin_distance 0 - quadC3.origin_distance 3 = -2 := by
    norm_num [Bar.origin_distance, originDistanceGo, quadC3]
  rw [hod]
  have hle : line_extension (0, 1) (3, 1) (-2) = ((1 : ℝ), (1 : ℝ)) := by
    unfold line_extension
    rw [line_angle_horizontal 0 1 3 (by norm_num)]
    norm_num [Real.cos_zero, Real.sin_zero, Prod.ext_iff]
  rw [hle]
  unfold updateLocation Joint.set_location Joint.assign_location
  rw [h0f]
  simp [Except.map]

theorem sC3_ge_one : 1 ≤ sC3 := by
  unfold sC3
  rw [Real.le_sqrt' (by norm_num)]
  nlinarith [sq_nonneg dC3]

theorem sC3_pos : 0 < sC3 := lt_of_lt_of_le one_pos sC3_ge_one

theorem sC3_le : sC3 ≤ 1 + dC3 ^ 2 := by
  unfold sC3
  rw [Real.sqrt_le_left (by positivity)]
  nlinarith [sq_nonneg dC3, sq_nonneg (dC3 ^ 2)]

theorem check_RS_C3 :
    |quadC3.joint_distance 3 2 - distance (3, 1) S1C3| < 1 / 1000 := by
  have hjd : quadC3.joint_distance 3 2 = 1 := by
    norm_num [Bar.joint_distance, Bar.origin_distance, originDistanceGo, quadC3]
  rw [hjd]
  have hdist : distance (3, 1) S1C3 =
      Real.sqrt ((2 - 3 / sC3) ^ 2 + (dC3 + dC3 * (3 / sC3)) ^ 2) := by
    unfold distance S1C3
    congr 1
    ring
  rw [hdist]
  have hs1 := sC3_ge_one
  have hs2 := sC3_le
  have hs0 := sC3_pos
  have hd : dC3 = 1 / 10000 := rfl
  have hu1 : 3 / sC3 ≤ 3 := div_le_self (by norm_num) hs1
  have hu2 : (29999999 : ℝ) / 10000000 ≤ 3 / sC3 := by
    have hstep : (3 : ℝ) / (1 + dC3 ^ 2) ≤ 3 / sC3 :=
      div_le_div_of_nonneg_left (by norm_num) hs0 hs2
    refine le_trans ?_ hstep
    rw [hd]
    norm_num
  have hX1 : (2 - 3 / sC3) ^ 2 + (dC3 + dC3 * (3 / sC3)) ^ 2 <
      (1001 / 1000 : ℝ) ^ 2 := by
    nlinarith [mul_nonneg (by linarith : (0 : ℝ) ≤ 3 / sC3 - 1)
      (by linarith : (0 : ℝ) ≤ 3 - 3 / sC3), hd, hu1, hu2]
  have hX2 : (999 / 1000 : ℝ) ^ 2 <
      (2 - 3 / sC3) ^ 2 + (dC3 + dC3 * (3 / sC3)) ^ 2 := by
    nlinarith [sq_nonneg (dC3 + dC3 * (3 / sC3)), hu1, hu2]
  have hlow : (999 / 1000 : ℝ) <
      Real.sqrt ((2 - 3 / sC3) ^ 2 + (dC3 + dC3 * (3 / sC3)) ^ 2) := by
    rw [Real.lt_sqrt (by norm_num)]
    exact hX2
  have hhigh : Real.sqrt ((2 - 3 / sC3) ^ 2 + (dC3 + dC3 * (3 / sC3)) ^ 2) <
      1001 / 1000 := by
    rw [Real.sqrt_lt' (by norm_num)]
    exact hX1
  rw [abs_sub_lt_iff]
  constructor <;> linarith

theorem checks_C3_run1 : runChecks Lc3.bars jmD3 (1 / 1000) = none := by
  rw [runChecks_none_iff]
  intro bar hbar
  have hb2 : bar = quadC3 ∨ bar = b2C3 := by simpa [Lc3] using hbar
  rcases hb2 with rfl | rfl
  · rw [checkPairs_none_iff]
    intro pr hpr
    have hpr3 : pr = ((1 : ℕ), (0 : ℕ)) ∨ pr = ((0 : ℕ), (3 : ℕ)) ∨
        pr = ((3 : ℕ), (2 : ℕ)) := by
      simpa [quadC3, adjacentPairs] using hpr
    rcases hpr3 with rfl | rfl | rfl
    · refine ⟨(0, 1), (1, 1), rfl, rfl, ?_⟩
      rw [show quadC3.joint_distance 1 0 = 1 by
          norm_num [Bar.joint_distance, Bar.origin_distance, originDistanceGo,
            quadC3],
        show distance (0, 1) (1, 1) = 1 from by
          show Real.sqrt (((0 : ℝ) - 1) ^ 2 + ((1 : ℝ) - 1) ^ 2) = 1
          exact sqrt_eval _ 1 (by norm_num) (by norm_num)]
      norm_num
    · refine ⟨(1, 1), (3, 1), rfl, rfl, ?_⟩
      rw [show quadC3.joint_distance 0 3 = 2 by
          norm_num [Bar.joint_distance, Bar.origin_distance, originDistanceGo,
            quadC3],
        show distance (1, 1) (3, 1) = 2 from by
          show Real.sqrt (((1 : ℝ) - 3) ^ 2 + ((1 : ℝ) - 1) ^ 2) = 2
          exact sqrt_eval _ 2 (by norm_num) (by norm_num)]
      norm_num
    · exact ⟨(3, 1), S1C3, rfl, rfl, check_RS_C3⟩
  · rw [checkPairs_none_iff]
    intro pr hpr
    have hpr1 : pr = ((4 : ℕ), (1 : ℕ)) := by
      simpa [b2C3, adjacentPairs] using hpr
    subst hpr1
    refine ⟨(3, -3), (0, 1), rfl, rfl, ?_⟩
    rw [show b2C3.joint_distance 4 1 = 5 by
        norm_num [Bar.joint_distance, Bar.origin_distance, originDistanceGo,
          b2C3],
      show distance (3, -3) (0, 1) = 5 from by
        show Real.sqrt (((3 : ℝ) - 0) ^ 2 + ((-3 : ℝ) - 1) ^ 2) = 5
        exact sqrt_eval _ 5 (by norm_num) (by norm_num)]
    norm_num

theorem simulate_C3_run1 :
    (Lc3.simulate_to_time 0 stC3).2 = none ∧
    (Lc3.simulate_to_time 0 stC3).1.jm = jmD3 := by
  have hrun : runSteps [stepPC3, stepSC3, stepQC3] 0 jmC3 = (jmD3, none) := by
    rw [runSteps_cons_ok _ _ _ _ jmD1 (runStep_P_C3 jmC3 rfl rfl rfl rfl)]
    rw [runSteps_cons_ok _ _ _ _ jmD2 runStep_S_C3_run1]
    exact runSteps_one_ok _ _ _ jmD3 (runStep_Q_C3 jmD2 rfl rfl rfl)
  rw [simulate_eq_missBranch_some Lc3 0 stC3 (fun _ => none)
      ⟨by norm_num, by norm_num⟩ rfl rfl]
  rw [missBranch_none_generate Lc3 0 stC3 _ _ rfl
    (generate_C3 jmC3 (by decide))]
  rw [runBranch_eval_ok Lc3 0 _ _ _ jmD3
    (simFunctionRun_eval_ok Lc3 _ 0 jmC3 jmD3 hrun checks_C3_run1)]
  exact ⟨rfl, rfl⟩

/-- The joint store after the second run's intersection step. -/
noncomputable def jmE1 : JMap :=
  setJoint jmD3 1 { jmD3 1 with location := some (0, 1) }

/-- The joint store after the second run's S step: the rerun reads the
corrected Q and puts S at (4, 1). -/
noncomputable def jmE2 : JMap :=
  setJoint jmE1 2 { jmE1 2 with location := some (4, 1) }

/-- The joint store at the end of the second run. -/
noncomputable def jmE3 : JMap :=
  setJoint jmE2 0 { jmE2 0 with location := some (1, 1) }

theorem checks_C3_run2 : runChecks Lc3.bars jmE3 (1 / 1000) = none := by
  rw [runChecks_none_iff]
  intro bar hbar
  have hb2 : bar = quadC3 ∨ bar = b2C3 := by simpa [Lc3] using hbar
  rcases hb2 with rfl | rfl
  · rw [checkPairs_none_iff]
    intro pr hpr
    have hpr3 : pr = ((1 : ℕ), (0 : ℕ)) ∨ pr = ((0 : ℕ), (3 : ℕ)) ∨
        pr = ((3 : ℕ), (2 : ℕ)) := by
      simpa [quadC3, adjacentPairs] using hpr
    rcases hpr3 with rfl | rfl | rfl
    · refine ⟨(0, 1), (1, 1), rfl, rfl, ?_⟩
      rw [show quadC3.joint_distance 1 0 = 1 by
          norm_num [Bar.joint_distance, Bar.origin_distance, originDistanceGo,
            quadC3],
        show distance (0, 1) (1, 1) = 1 from by
          show Real.sqrt (((0 : ℝ) - 1) ^ 2 + ((1 : ℝ) - 1) ^ 2) = 1
          exact sqrt_eval _ 1 (by norm_num) (by norm_num)]
      norm_num
    · refine ⟨(1, 1), (3, 1), rfl, rfl, ?_⟩
      rw [show quadC3.joint_distance 0 3 = 2 by
          norm_num [Bar.joint_distance, Bar.origin_distance, originDistanceGo,
            quadC3],
        show distance (1, 1) (3, 1) = 2 from by
          show Real.sqrt (((1 : ℝ) - 3) ^ 2 + ((1 : ℝ) - 1) ^ 2) = 2
          exact sqrt_eval _ 2 (by norm_num) (by norm_num)]
      norm_num
    · refine ⟨(3, 1), (4, 1), rfl, rfl, ?_⟩
      rw [show quadC3.joint_distance 3 2 = 1 by
          norm_num [Bar.joint_distance, Bar.origin_distance, originDistanceGo,
            quadC3],
        show distance (3, 1) (4, 1) = 1 from by
          show Real.sqrt (((3 : ℝ) - 4) ^ 2 + ((1 : ℝ) - 1) ^ 2) = 1
          exact sqrt_eval _ 1 (by norm_num) (by norm_num)]
      norm_num
  · rw [checkPairs_none_iff]
    intro pr hpr
    have hpr1 : pr = ((4 : ℕ), (1 : ℕ)) := by
      simpa [b2C3, adjacentPairs] using hpr
    subst hpr1
    refine ⟨(3, -3), (0, 1), rfl, rfl, ?_⟩
    rw [show b2C3.joint_distance 4 1 = 5 by
        norm_num [Bar.joint_distance, Bar.origin_distance, originDistanceGo,
          b2C3],
      show distance (3, -3) (0, 1) = 5 from by
        show Real.sqrt (((3 : ℝ) - 0) ^ 2 + ((-3 : ℝ) - 1) ^ 2) = 5
        exact sqrt_eval _ 5 (by norm_num) (by norm_num)]
    norm_num

theorem simulate_C3_run2 (st : LinkState) (hjm : st.jm = jmD3)
    (hc : st.cache = none) (hsf : st.simulation_function = none) :
    (Lc3.simulate_to_time 0 st).2 = none ∧
    ((Lc3.simulate_to_time 0 st).1.jm 2).location =
      some ((4 : ℝ), (1 : ℝ)) := by
  have hrun : runSteps [stepPC3, stepSC3, stepQC3] 0 jmD3 = (jmE3, none) := by
    rw [runSteps_cons_ok _ _ _ _ jmE1 (runStep_P_C3 jmD3 rfl rfl rfl rfl)]
    rw [runSteps_cons_ok _ _ _ _ jmE2 (runStep_S_C3_run2 jmE1 rfl rfl rfl)]
    exact runSteps_one_ok _ _ _ jmE3 (runStep_Q_C3 jmE2 rfl rfl rfl)
  rw [simulate_eq_missBranch_none Lc3 0 st ⟨by norm_num, by norm_num⟩ hc]
  rw [missBranch_none_generate Lc3 0 { st with cache := some (fun _ => none) }
    ⌊(10000 : ℝ) * 0⌋ [stepPC3, stepSC3, stepQC3]
    (show ({ st with cache := some (fun _ => none) } :
      LinkState).simulation_function = none from hsf)
    (by
      show generate_simulation_function Lc3 st.jm = _
      rw [hjm]
      exact generate_C3 jmD3 (by decide))]
  rw [runBranch_eval_ok Lc3 0 _ _ _ jmE3
    (by
      refine simFunctionRun_eval_ok Lc3 _ 0 _ jmE3 ?_ checks_C3_run2
      show runSteps _ 0 st.jm = _
      rw [hjm]
      exact hrun)]
  exact ⟨rfl, rfl⟩

theorem S1C3_ne : S1C3 ≠ ((4 : ℝ), (1 : ℝ)) := by
  intro h
  have hy := congrArg Prod.snd h
  dsimp only [S1C3] at hy
  have h1 : 0 < dC3 := by
    rw [show dC3 = 1 / 10000 from rfl]
    norm_num
  have h2 : 0 < 3 * dC3 / sC3 := div_pos (by linarith) sC3_pos
  linarith

/-- C3: the claim's deterministic-recomputation half fails on the code.  In
the concrete linkage `Lc3`, `simulate_to_time 0` succeeds and leaves joint 2
at `S1C3` (a point computed from the stale initial location of joint 0,
because the extension solver reads `other_joints[0:2]` instead of its
requirement pair); after `invalidate_caches`, the same call at the same time
succeeds again but leaves joint 2 at (4, 1) ≠ `S1C3`: recomputation does not
reproduce the first call's locations even though the topology is
unchanged. -/
theorem simulate_invalidate_not_reproducible :
    (Lc3.simulate_to_time 0 stC3).2 = none ∧
    ((Lc3.simulate_to_time 0 stC3).1.jm 2).location = some S1C3 ∧
    (Lc3.simulate_to_time 0
      (invalidate_caches (Lc3.simulate_to_time 0 stC3).1)).2 = none ∧
    ((Lc3.simulate_to_time 0
      (invalidate_caches (Lc3.simulate_to_time 0 stC3).1)).1.jm 2).location =
        some ((4 : ℝ), (1 : ℝ)) ∧
    S1C3 ≠ ((4 : ℝ), (1 : ℝ)) := by
  obtain ⟨h1, h2⟩ := simulate_C3_run1
  have hrun2 := simulate_C3_run2
    (invalidate_caches (Lc3.simulate_to_time 0 stC3).1) h2 rfl rfl
  refine ⟨h1, ?_, hrun2.1, hrun2.2, S1C3_ne⟩
  rw [h2]
  rfl

end Plynk

